import Mathlib

/-!
# layerfs store: cache lifecycle (`internal/layerfs/store.go`)

A shallow embedding of `MountOptions.validate`, `MountOptions.containerName`,
`store.Mount`, `store.Unmount`, `unmountAndDelete`, `store.commit`,
`store.imageRef`, `store.storeImageRef` and `localImageName`.

Conventions of the embedding:

* Go strings are Lean strings.  The path functions only inspect the ASCII
  bytes `/` and `.`, which never occur inside a multi-byte UTF-8 sequence, so
  working on characters instead of bytes does not change their results.
* A Go `error` is `Option Err` (`none` is `nil`); a `(value, error)` pair is
  `Except Err value`.
* Every call that leaves the file (operating system, buildah builder,
  containers/storage, containers/image, and the package functions `mount`,
  `unmount` and `pushImage`, which live in other files of the package) is a
  field of `Collaborators`: the answer the collaborator gives for the
  arguments it is called with.  Each such call is appended, with its outcome,
  to the trace of the run.
* Logging has no influence on control flow and is left out.
* A `defer` is the function applied to the result of the code it guards.
-/

namespace Layerfs

/-! ## Go standard library: `strings` and `path/filepath` (Unix) -/

/-- Go `strings.HasPrefix`. -/
def HasPrefix (s p : String) : Bool := p.data.isPrefixOf s.data

/-- Go `strings.HasSuffix`. -/
def HasSuffix (s suf : String) : Bool := suf.data.isSuffixOf s.data

/-- Go `os.IsPathSeparator` on Unix. -/
def IsPathSeparator (c : Char) : Bool := c == '/'

/-- Go `filepath.IsAbs` on Unix: `strings.HasPrefix(path, "/")`. -/
def IsAbs (path : String) : Bool := HasPrefix path "/"

/-- First loop of `filepath.Base`: strip trailing slashes. -/
def stripTrailingSlashes (p : List Char) : List Char :=
  (p.reverse.dropWhile IsPathSeparator).reverse

/-- Second loop of `filepath.Base`: walk back from the end to the last
separator and keep what follows it (everything, when there is none). -/
def lastElement (p : List Char) : List Char :=
  (p.reverse.takeWhile (fun c => !IsPathSeparator c)).reverse

/-- Go `filepath.Base` on Unix (the volume name is always empty). -/
def Base (path : String) : String :=
  if path = "" then "."
  else
    let p := lastElement (stripTrailingSlashes path.data)
    if p = [] then "/" else String.mk p

/-- Backtracking of `filepath.Clean` at a `..` element, on the reversed output
buffer: `out.w--` followed by
`for out.w > dotdot && !IsPathSeparator(out.index(out.w)) { out.w-- }`. -/
def cleanBacktrack (dotdot : Nat) : List Char → List Char
  | [] => []
  | c :: r => if dotdot < r.length ∧ !IsPathSeparator c then cleanBacktrack dotdot r else r

/-- Main loop of `filepath.Clean`.  `rest` is `path[r:]`, `out` is the reversed
output buffer `buf[0:w]`, `dotdot` is the index where `..` must stop.  Every
iteration consumes at least one character of `rest`, so the length of the path
is enough fuel. -/
def cleanLoop (rooted : Bool) : Nat → List Char → List Char → Nat → List Char
  | 0, _, out, _ => out
  | _ + 1, [], out, _ => out
  | fuel + 1, c :: rest, out, dotdot =>
    if IsPathSeparator c then
      -- empty path element
      cleanLoop rooted fuel rest out dotdot
    else if c = '.' ∧ (rest = [] ∨ (rest.head?.map IsPathSeparator) = some true) then
      -- . element
      cleanLoop rooted fuel rest out dotdot
    else if c = '.' ∧ rest.head? = some '.' ∧
        (rest.tail = [] ∨ (rest.tail.head?.map IsPathSeparator) = some true) then
      -- .. element: remove to last separator
      if dotdot < out.length then
        cleanLoop rooted fuel rest.tail (cleanBacktrack dotdot out) dotdot
      else if !rooted then
        let out1 := if 0 < out.length then '/' :: out else out
        let out2 := '.' :: '.' :: out1
        cleanLoop rooted fuel rest.tail out2 out2.length
      else
        cleanLoop rooted fuel rest.tail out dotdot
    else
      -- real path element: add slash if needed, copy element
      let out1 :=
        if (rooted && out.length != 1) || (!rooted && out.length != 0) then '/' :: out else out
      let elem := c :: rest.takeWhile (fun x => !IsPathSeparator x)
      cleanLoop rooted fuel (rest.dropWhile (fun x => !IsPathSeparator x))
        (elem.reverse ++ out1) dotdot

/-- Go `filepath.Clean` on Unix. -/
def Clean (path : String) : String :=
  if path = "" then "."
  else
    let p := path.data
    let rooted := (p.head?.map IsPathSeparator) = some true
    let out :=
      if rooted then cleanLoop true p.length p.tail ['/'] 1
      else cleanLoop false p.length p [] 0
    if out.length = 0 then "." else String.mk out.reverse

/-! ## Errors -/

/-- An error value handed back by a collaborator: its `Error()` text and what
`os.IsNotExist` answers for it. -/
structure ExtErr where
  message : String
  notExist : Bool
  deriving DecidableEq, Repr

/-- Error values seen by the callers of the store. -/
inductive Err where
  /-- an error returned by a collaborator, passed on unchanged -/
  | ext (e : ExtErr)
  /-- `errors.Errorf` / `errors.New` / `fmt.Errorf` with its format and arguments -/
  | errorf (format : String) (args : List String)
  /-- `errors.Wrap` / `errors.Wrapf` of a non-nil cause -/
  | wrapf (cause : Err) (format : String) (args : List String)
  deriving DecidableEq, Repr

deriving instance DecidableEq for Except

/-! ## `MountOptions` -/

/-- A `context.Context`, reduced to what the store asks of it: the value of
`Err()` at the moment the deferred deletion of `Unmount` consults it. -/
structure Context where
  Err : Option ExtErr
  deriving DecidableEq, Repr

structure MountOptions where
  Context : Context
  Image : String
  ContainerName : String
  ExtMountDir : String
  Commit : Bool
  CacheName : String
  CacheNamespace : String
  deriving DecidableEq, Repr

/-- `MountOptions.validate` (store.go 46-56). -/
def MountOptions.validate (o : MountOptions) : Option Err :=
  if o.Image = "" ∧ o.CacheName = "" then
    some (.errorf "neither cache name nor image specified" [])
  else if o.ExtMountDir ≠ "" then
    if !IsAbs o.ExtMountDir then
      some (.errorf "non-absolute mount path %q provided" [o.ExtMountDir])
    else none
  else none

/-- `MountOptions.containerName` (store.go 58-70). -/
def MountOptions.containerName (o : MountOptions) : Except Err String :=
  if o.ContainerName ≠ "" then .ok o.ContainerName
  else if o.ExtMountDir ≠ "" then
    let name := Base o.ExtMountDir
    if name = "" ∨ name = ".." ∨ name = "." ∨ name = "/" then
      .error (.errorf
        "cannot derive container name from provided mount path %q, requires sub directory"
        [o.ExtMountDir])
    else .ok (Clean o.ExtMountDir)
  else .ok ""

/-- `localImageName` (store.go 330-332). -/
def localImageName (o : MountOptions) : String :=
  "localhost/cache/" ++ o.CacheNamespace ++ "/" ++ o.CacheName ++ ":latest"

/-! ## Collaborator data -/

/-- Go `buildah.PullPolicy`, the two values the store uses. -/
inductive PullPolicy where
  | PullAlways
  | PullNever
  deriving DecidableEq, Repr

/-- A `types.ImageReference`, reduced to `DockerReference().String()`, the only
thing the store reads from it.  References are taken to carry a docker
reference, as those of the `containers-storage` and `docker` transports do. -/
structure ImageReference where
  dockerReference : String
  deriving DecidableEq, Repr

/-- The fields of `buildah.Builder` the store reads or writes.  `Args` is a Go
map and may be nil. -/
structure Builder where
  ContainerID : String
  FromImageID : String
  MountLabel : String
  Args : Option (List (String × String))
  deriving DecidableEq, Repr

/-- The fields of `storage.Container` the store reads. -/
structure Container where
  ID : String
  Names : List String
  ImageID : String
  LayerID : String
  deriving DecidableEq, Repr

/-- An `archive.Change`: path and kind. -/
structure Change where
  Path : String
  Kind : Nat
  deriving DecidableEq, Repr

/-- Indexing a Go `map[string]string`: the value of the key, or the empty
string when the key is absent. -/
def mapGet (m : List (String × String)) (key : String) : String :=
  match m.lookup key with
  | some v => v
  | none => ""

/-- The answers of everything the store calls outside of store.go. -/
structure Collaborators where
  /-- `os.Mkdir(dir, 0000)` -/
  osMkdir : String → Option ExtErr
  /-- `os.Remove(dir)` -/
  osRemove : String → Option ExtErr
  /-- package function `mount(dir, extDir)`: the bind mount -/
  mount : String → String → Option ExtErr
  /-- package function `unmount(dir)` -/
  unmount : String → Option ExtErr
  /-- `buildah.NewBuilder`, reached through `store.newBuilder` (store.go
  173-184), for container name, image name and pull policy; the remaining
  builder options are constants -/
  NewBuilder : String → String → PullPolicy → Except ExtErr Builder
  /-- `buildah.OpenBuilder(store, name)` -/
  OpenBuilder : String → Except ExtErr Builder
  /-- `buildah.OpenBuilderByPath(store, path)` -/
  OpenBuilderByPath : String → Except ExtErr Builder
  /-- `builder.Mount(label)` -/
  builderMount : Builder → String → Except ExtErr String
  /-- `builder.Save()` -/
  builderSave : Builder → Option ExtErr
  /-- `builder.Unmount()` -/
  builderUnmount : Builder → Option ExtErr
  /-- `builder.Delete()` -/
  builderDelete : Builder → Option ExtErr
  /-- `builder.Commit(ctx, imgRef, opts)`: image ID and canonical reference -/
  builderCommit : Builder → ImageReference → Except ExtErr (String × Option String)
  /-- `store.Container(id)` -/
  storeContainer : String → Except ExtErr Container
  /-- `store.Changes(from, to)` -/
  storeChanges : String → String → Except ExtErr (List Change)
  /-- `imgstorage.Transport.ParseStoreReference(store, name)` -/
  ParseStoreReference : String → Except ExtErr ImageReference
  /-- `alltransports.ParseImageName(name)` -/
  ParseImageName : String → Except ExtErr ImageReference
  /-- package method `pushImage(ctx, ref, imageID, imageRef)` -/
  pushImage : Option String → String → Option ImageReference → Option ExtErr

/-- The collaborator calls, with the arguments that identify them. -/
inductive Call where
  | osMkdir (dir : String)
  | osRemove (dir : String)
  | mount (dir extDir : String)
  | unmount (dir : String)
  | NewBuilder (name image : String) (policy : PullPolicy)
  | OpenBuilder (name : String)
  | OpenBuilderByPath (path : String)
  | builderMount (containerID : String)
  | builderSave (containerID : String)
  | builderUnmount (containerID : String)
  | builderDelete (containerID : String)
  | builderCommit (containerID : String)
  | storeContainer (id : String)
  | storeChanges (layerID : String)
  | ParseStoreReference (name : String)
  | ParseImageName (name : String)
  | pushImage (imageID : String)
  deriving DecidableEq, Repr

/-- One collaborator call of a run and the error it returned (`none`: it
succeeded). -/
structure Event where
  call : Call
  failure : Option ExtErr
  deriving DecidableEq, Repr

/-- The error of a `(value, error)` answer. -/
def failureOf {α : Type} (r : Except ExtErr α) : Option ExtErr :=
  match r with
  | .ok _ => none
  | .error e => some e

/-! ## Image references (store.go 314-332) -/

/-- `store.storeImageRef` (store.go 326-328). -/
def storeImageRef (w : Collaborators) (name : String) :
    Except Err ImageReference × List Event :=
  match w.ParseStoreReference name with
  | .ok r => (.ok r, [⟨.ParseStoreReference name, none⟩])
  | .error e => (.error (.ext e), [⟨.ParseStoreReference name, some e⟩])

/-- `store.imageRef` (store.go 314-324). -/
def imageRef (w : Collaborators) (o : MountOptions) :
    Except Err ImageReference × List Event :=
  if o.Image = "" then
    if o.CacheName = "" ∨ o.CacheNamespace = "" then
      (.error (.errorf "cache name and namespace must be specified" []), [])
    else storeImageRef w (localImageName o)
  else
    match w.ParseImageName o.Image with
    | .ok r => (.ok r, [⟨.ParseImageName o.Image, none⟩])
    | .error e =>
      (.error (.wrapf (.ext e) "invalid image name provided" []),
        [⟨.ParseImageName o.Image, some e⟩])

/-! ## `store.Mount` (store.go 89-171) -/

/-- What a run of `Mount` returns, and the collaborator calls it made. -/
structure MountRun where
  dir : String
  err : Option Err
  trace : List Event
  deriving DecidableEq, Repr

/-- The `notFound` test of store.go 132. -/
def notFound (e : ExtErr) : Bool :=
  HasSuffix e.message ": manifest unknown" || HasSuffix e.message " could not be found locally"

/-- Store.go 152-170: mount the container, record and bind the external
directory.  Returns the builder as it is afterwards (its `Args` may have been
replaced) together with the values of `dir` and `err` at the `return`. -/
def mountContainer (w : Collaborators) (opts : MountOptions) (builder : Builder) :
    Builder × MountRun :=
  match w.builderMount builder builder.MountLabel with
  | .error e => (builder, ⟨"", some (.ext e), [⟨.builderMount builder.ContainerID, some e⟩]⟩)
  | .ok dir =>
    if opts.ExtMountDir ≠ "" then
      let builder1 := { builder with Args := some [("MOUNT_DIR", opts.ExtMountDir)] }
      match w.builderSave builder1 with
      | some e =>
        (builder1, ⟨"", some (.ext e),
          [⟨.builderMount builder.ContainerID, none⟩, ⟨.builderSave builder.ContainerID, some e⟩]⟩)
      | none =>
        let r := w.mount dir opts.ExtMountDir
        (builder1, ⟨opts.ExtMountDir, r.map Err.ext,
          [⟨.builderMount builder.ContainerID, none⟩, ⟨.builderSave builder.ContainerID, none⟩,
           ⟨.mount dir opts.ExtMountDir, r⟩]⟩)
    else (builder, ⟨dir, none, [⟨.builderMount builder.ContainerID, none⟩]⟩)

/-- The deferred function of store.go 145-150, applied to the result of the
code it guards: on error unmount and delete the container, ignoring both
outcomes. -/
def deferContainerCleanup (w : Collaborators) (br : Builder × MountRun) : MountRun :=
  if br.2.err ≠ none then
    { br.2 with trace := br.2.trace ++
        [⟨.builderUnmount br.1.ContainerID, w.builderUnmount br.1⟩,
         ⟨.builderDelete br.1.ContainerID, w.builderDelete br.1⟩] }
  else br.2

/-- Store.go 128-170: acquire the container, falling back to `scratch`, then
mount it under the deferred container cleanup. -/
def mountAcquire (w : Collaborators) (opts : MountOptions) (name imageName : String)
    (pullPolicy : PullPolicy) : MountRun :=
  match w.NewBuilder name imageName pullPolicy with
  | .ok builder =>
    let r := deferContainerCleanup w (mountContainer w opts builder)
    { r with trace := ⟨.NewBuilder name imageName pullPolicy, none⟩ :: r.trace }
  | .error e =>
    if !notFound e || imageName == "scratch" then
      ⟨"", some (.ext e), [⟨.NewBuilder name imageName pullPolicy, some e⟩]⟩
    else
      match w.NewBuilder name "scratch" .PullNever with
      | .error e2 =>
        ⟨"", some (.ext e2), [⟨.NewBuilder name imageName pullPolicy, some e⟩,
          ⟨.NewBuilder name "scratch" .PullNever, some e2⟩]⟩
      | .ok builder =>
        let r := deferContainerCleanup w (mountContainer w opts builder)
        { r with trace := ⟨.NewBuilder name imageName pullPolicy, some e⟩ ::
            ⟨.NewBuilder name "scratch" .PullNever, none⟩ :: r.trace }

/-- The deferred function of store.go 121-125, applied to the result of the
code it guards: on error remove the external directory, ignoring the outcome. -/
def deferRemoveDir (w : Collaborators) (opts : MountOptions) (r : MountRun) : MountRun :=
  if r.err ≠ none then
    { r with trace := r.trace ++ [⟨.osRemove opts.ExtMountDir, w.osRemove opts.ExtMountDir⟩] }
  else r

/-- `store.Mount` (store.go 89-171). -/
def Mount (w : Collaborators) (opts : MountOptions) : MountRun :=
  match opts.validate with
  | some e => ⟨"", some e, []⟩
  | none =>
  match opts.containerName with
  | .error e => ⟨"", some e, []⟩
  | .ok name =>
  -- Get qualified cache image name
  let resolved :=
    if opts.Image = "" then (PullPolicy.PullNever, storeImageRef w (localImageName opts))
    else (PullPolicy.PullAlways, imageRef w opts)
  match resolved with
  | (_, .error e, t) => ⟨"", some e, t⟩
  | (pullPolicy, .ok ref, t) =>
  let imageName := ref.dockerReference
  -- Create external mount directory if specified
  if opts.ExtMountDir ≠ "" then
    match w.osMkdir opts.ExtMountDir with
    | some e => ⟨"", some (.ext e), t ++ [⟨.osMkdir opts.ExtMountDir, some e⟩]⟩
    | none =>
      let r := deferRemoveDir w opts (mountAcquire w opts name imageName pullPolicy)
      { r with trace := t ++ ⟨.osMkdir opts.ExtMountDir, none⟩ :: r.trace }
  else
    let r := mountAcquire w opts name imageName pullPolicy
    { r with trace := t ++ r.trace }

/-! ## `store.commit` (store.go 274-312) -/

/-- What a call of `store.commit` returns, and the collaborator calls it made. -/
structure CommitRun where
  imageID : String
  ref : Option String
  newImage : Bool
  err : Option Err
  trace : List Event
  deriving DecidableEq, Repr

/-- `store.commit` (store.go 274-312).  `imgRef` is `none` for a nil
reference. -/
def commit (w : Collaborators) (builder : Builder) (imgRef : Option ImageReference) :
    CommitRun :=
  match w.storeContainer builder.ContainerID with
  | .error e => ⟨"", none, false, some (.ext e), [⟨.storeContainer builder.ContainerID, some e⟩]⟩
  | .ok c =>
  match w.storeChanges "" c.LayerID with
  | .error e =>
    ⟨"", none, false, some (.ext e),
      [⟨.storeContainer builder.ContainerID, none⟩, ⟨.storeChanges c.LayerID, some e⟩]⟩
  | .ok changes =>
  let t : List Event :=
    [⟨.storeContainer builder.ContainerID, none⟩, ⟨.storeChanges c.LayerID, none⟩]
  let imageID := c.ImageID
  match imgRef with
  | some ref =>
    if changes.length = 0 then
      if imageID ≠ "" then
        -- skipping commit since nothing changed
        ⟨imageID, none, false, none, t⟩
      else
        match w.builderCommit builder ref with
        | .error e =>
          ⟨"", none, false, some (.wrapf (.ext e) "commit" []),
            t ++ [⟨.builderCommit builder.ContainerID, some e⟩]⟩
        | .ok (id, cref) => ⟨id, cref, true, none, t ++ [⟨.builderCommit builder.ContainerID, none⟩]⟩
    else
      match w.builderCommit builder ref with
      | .error e =>
        ⟨"", none, false, some (.wrapf (.ext e) "commit" []),
          t ++ [⟨.builderCommit builder.ContainerID, some e⟩]⟩
      | .ok (id, cref) => ⟨id, cref, true, none, t ++ [⟨.builderCommit builder.ContainerID, none⟩]⟩
  | none => ⟨imageID, none, false, none, t⟩

/-! ## `store.Unmount` (store.go 186-272) -/

/-- `unmountAndDelete` (store.go 261-272): the error of `unmount` is only
logged; the result is the error of `os.Remove` unless that is a not-exist
error. -/
def unmountAndDelete (w : Collaborators) (dir : String) : Option Err × List Event :=
  let e := w.unmount dir
  let t : List Event := [⟨.unmount dir, e⟩, ⟨.osRemove dir, w.osRemove dir⟩]
  match w.osRemove dir with
  | some err => if !err.notExist then (some (.ext err), t) else (none, t)
  | none => (none, t)

/-- What a run of `Unmount` returns, the collaborator calls it made, and the
result of the commit step when the run reached it. -/
structure UnmountRun where
  imageID : String
  newImage : Bool
  err : Option Err
  trace : List Event
  commitStep : Option CommitRun
  deriving DecidableEq, Repr

/-- Store.go 240-246: the reference to push to, nil (`none`) unless an image
was named. -/
def pushTarget (w : Collaborators) (opts : MountOptions) :
    Except Err (Option ImageReference) × List Event :=
  if opts.Image ≠ "" then
    match imageRef w opts with
    | (.error e, t) => (.error e, t)
    | (.ok r, t) => (.ok (some r), t)
  else (.ok none, [])

/-- Store.go 247-258: commit, then push a new image to the named image. -/
def commitThenPush (w : Collaborators) (opts : MountOptions) (builder : Builder)
    (localImgRef : ImageReference) (imageRef : Option ImageReference) : UnmountRun :=
  let c := commit w builder (some localImgRef)
  match c.err with
  | some e => ⟨"", false, some e, c.trace, some c⟩
  | none =>
    if c.newImage ∧ opts.Image ≠ "" then
      -- push image to registry
      let p := w.pushImage c.ref c.imageID imageRef
      match p with
      | some e => ⟨"", false, some (.ext e), c.trace ++ [⟨.pushImage c.imageID, p⟩], some c⟩
      | none => ⟨c.imageID, c.newImage, none, c.trace ++ [⟨.pushImage c.imageID, p⟩], some c⟩
    else ⟨c.imageID, c.newImage, none, c.trace, some c⟩

/-- Store.go 236-258: resolve the local and the named reference, then
`commitThenPush`. -/
def resolveCommitPush (w : Collaborators) (opts : MountOptions) (builder : Builder) :
    UnmountRun :=
  match storeImageRef w (localImageName opts) with
  | (.error e, t2) => ⟨"", false, some e, t2, none⟩
  | (.ok localImgRef, t2) =>
    match pushTarget w opts with
    | (.error e, t3) => ⟨"", false, some e, t2 ++ t3, none⟩
    | (.ok imageRef, t3) =>
      let r := commitThenPush w opts builder localImgRef imageRef
      { r with trace := t2 ++ t3 ++ r.trace }

/-- Store.go 230-258: everything after the deferred deletion is registered, up
to the `return`.  `err` is the value of the variable `err` at line 230. -/
def unmountRelease (w : Collaborators) (opts : MountOptions) (builder : Builder)
    (err : Option Err) : UnmountRun :=
  let e := w.builderUnmount builder
  let err1 := if e ≠ none ∧ err = none then e.map Err.ext else err
  if err1 ≠ none ∨ !opts.Commit then
    ⟨"", false, err1, [⟨.builderUnmount builder.ContainerID, e⟩], none⟩
  else
    let r := resolveCommitPush w opts builder
    { r with trace := ⟨.builderUnmount builder.ContainerID, e⟩ :: r.trace }

/-- The deferred function of store.go 222-229, applied to the result of the
code it guards: unless the context is done, delete the container; the error of
the deletion is returned only when `err` is nil. -/
def deferDelete (w : Collaborators) (opts : MountOptions) (builder : Builder)
    (r : UnmountRun) : UnmountRun :=
  if opts.Context.Err = none then
    let e := w.builderDelete builder
    { r with
      err := if e ≠ none ∧ r.err = none then e.map Err.ext else r.err
      trace := r.trace ++ [⟨.builderDelete builder.ContainerID, e⟩] }
  else r

/-- A run of `Unmount` up to its `return` statement: either it returned before
a container was located (`early`), or it located `builder`, registered the
deferred deletion and then reached a `return` with the given values. -/
inductive UnmountBody where
  | early (r : UnmountRun)
  | located (builder : Builder) (r : UnmountRun)
  deriving DecidableEq, Repr

/-- Store.go 197-202: release the requested external directory.  The first
component is the value of `err` at line 203. -/
def releaseRequested (w : Collaborators) (opts : MountOptions) : Option Err × List Event :=
  let dir := opts.ExtMountDir
  if dir ≠ "" then unmountAndDelete w dir else (none, [])

/-- Store.go 216-221: release the directory recorded in `MOUNT_DIR` when it is
non-empty and differs from the requested one.  The variable `err` is nil at
line 216; the first component is its value at line 222. -/
def releaseRecorded (w : Collaborators) (opts : MountOptions) (builder : Builder) :
    Option Err × List Event :=
  match builder.Args with
  | some args =>
    let dir := mapGet args "MOUNT_DIR"
    if dir ≠ "" ∧ dir ≠ opts.ExtMountDir then unmountAndDelete w dir else (none, [])
  | none => (none, [])

/-- Store.go 216-258 for a located container: `releaseRecorded`, then
`unmountRelease`.  `t` is the trace so far. -/
def unmountLocated (w : Collaborators) (opts : MountOptions) (builder : Builder)
    (t : List Event) : UnmountBody :=
  let recorded := releaseRecorded w opts builder
  let r := unmountRelease w opts builder recorded.1
  .located builder { r with trace := t ++ recorded.2 ++ r.trace }

/-- The values at the `return` statement. -/
def UnmountBody.run : UnmountBody → UnmountRun
  | .early r => r
  | .located _ r => r

/-- The located container, if the run located one. -/
def UnmountBody.builder : UnmountBody → Option Builder
  | .early _ => none
  | .located b _ => some b

/-- Store.go 186-258 without the deferred deletion. -/
def unmountBody (w : Collaborators) (opts : MountOptions) : UnmountBody :=
  match opts.validate with
  | some e => .early ⟨"", false, some e, [], none⟩
  | none =>
  if opts.ContainerName = "" ∧ opts.ExtMountDir = "" then
    .early ⟨"", false, some (.errorf "neither container name nor mount path provided" []), [], none⟩
  else
  match opts.containerName with
  | .error e => .early ⟨"", false, some e, [], none⟩
  | .ok name =>
  -- lines 197-202: `err` receives the error of unmountAndDelete
  let requested := releaseRequested w opts
  let t0 := requested.2
  -- line 205: `builder, err := buildah.OpenBuilder(...)` assigns the same
  -- variable `err` again, so `requested.1` is not read any more
  match w.OpenBuilder name with
  | .ok builder => unmountLocated w opts builder (t0 ++ [⟨.OpenBuilder name, none⟩])
  | .error e =>
    if opts.ContainerName = "" then
      match w.OpenBuilderByPath opts.ExtMountDir with
      | .error e1 =>
        .early ⟨"", false,
          some (.wrapf (.ext e1) "find cache container by path %s" [opts.ExtMountDir]),
          t0 ++ [⟨.OpenBuilder name, some e⟩, ⟨.OpenBuilderByPath opts.ExtMountDir, some e1⟩], none⟩
      | .ok builder =>
        unmountLocated w opts builder
          (t0 ++ [⟨.OpenBuilder name, some e⟩, ⟨.OpenBuilderByPath opts.ExtMountDir, none⟩])
    else
      .early ⟨"", false, some (.wrapf (.ext e) "find cache container %q" [name]),
        t0 ++ [⟨.OpenBuilder name, some e⟩], none⟩

/-- `store.Unmount` (store.go 186-259). -/
def Unmount (w : Collaborators) (opts : MountOptions) : UnmountRun :=
  match unmountBody w opts with
  | .early r => r
  | .located builder r => deferDelete w opts builder r

/-! ## Reading traces -/

/-- Number of events of a trace satisfying `p`. -/
def countCalls (p : Call → Bool) (t : List Event) : Nat :=
  t.countP (fun ev => p ev.call)

def Call.isNewBuilder : Call → Bool
  | .NewBuilder _ _ _ => true
  | _ => false

def Call.isBuilderCommit : Call → Bool
  | .builderCommit _ => true
  | _ => false

def Call.isBuilderDelete : Call → Bool
  | .builderDelete _ => true
  | _ => false

def Call.isBuilderUnmount : Call → Bool
  | .builderUnmount _ => true
  | _ => false

def Call.isBuilderMount : Call → Bool
  | .builderMount _ => true
  | _ => false

def Call.isPushImage : Call → Bool
  | .pushImage _ => true
  | _ => false

def Call.isOsRemove : Call → Bool
  | .osRemove _ => true
  | _ => false

/-- Calls `Unmount` makes while releasing external directories and locating
the container (store.go 197-221). -/
def Call.isPrelude : Call → Bool
  | .unmount _ => true
  | .osRemove _ => true
  | .OpenBuilder _ => true
  | .OpenBuilderByPath _ => true
  | _ => false

/-- Calls `Unmount` makes in its commit and push steps (store.go 236-258). -/
def Call.isCommitPhase : Call → Bool
  | .ParseStoreReference _ => true
  | .ParseImageName _ => true
  | .storeContainer _ => true
  | .storeChanges _ => true
  | .builderCommit _ => true
  | .pushImage _ => true
  | _ => false

/-- The acquisition attempts of a trace, in order. -/
def acquisitions (t : List Event) : List Event :=
  t.filter (fun ev => ev.call.isNewBuilder)

/-- Calls resolving the image reference. -/
def Call.isParse : Call → Bool
  | .ParseStoreReference _ => true
  | .ParseImageName _ => true
  | _ => false

/-- Calls of store.go 152-170: mounting the container, saving `MOUNT_DIR`, and
the bind mount. -/
def Call.isMountStep : Call → Bool
  | .builderMount _ => true
  | .builderSave _ => true
  | .mount _ _ => true
  | _ => false

/-- Calls of the deferred container cleanup of `Mount`. -/
def Call.isContainerCleanup : Call → Bool
  | .builderUnmount _ => true
  | .builderDelete _ => true
  | _ => false

/-- Whether a step of `Mount` after the creation of the external directory
failed: the last acquisition attempt, mounting the container, saving the
`MOUNT_DIR` argument, or the bind mount. -/
def laterStepFailed (t : List Event) : Bool :=
  t.any (fun ev => ev.call.isMountStep && ev.failure.isSome) ||
    (match (acquisitions t).getLast? with
     | some ev => ev.failure.isSome
     | none => false)

/-- Shape of a run of `Mount`: either it returns an error before acquiring a
container, having made only reference-parsing calls and possibly a failed
`os.Mkdir`; or it runs `mountAcquire` for the derived name and the resolved
image name, preceded by the parsing calls and a successful `os.Mkdir` (when a
directory was requested) and followed by `os.Remove` exactly when a directory
was requested and an error is returned. -/
def MountShape (w : Collaborators) (opts : MountOptions) : Prop :=
    ((Mount w opts).err ≠ none ∧ (Mount w opts).dir = "" ∧
      ∀ ev ∈ (Mount w opts).trace,
        ev.call.isParse = true ∨ ∃ e, ev = ⟨.osMkdir opts.ExtMountDir, some e⟩) ∨
    (∃ name ref policy pre post,
      opts.validate = none ∧ opts.containerName = .ok name ∧
      (opts.Image = "" →
        policy = .PullNever ∧ w.ParseStoreReference (localImageName opts) = .ok ref) ∧
      (opts.Image ≠ "" → policy = .PullAlways ∧ w.ParseImageName opts.Image = .ok ref) ∧
      (Mount w opts).trace =
        pre ++ (mountAcquire w opts name ref.dockerReference policy).trace ++ post ∧
      (Mount w opts).err = (mountAcquire w opts name ref.dockerReference policy).err ∧
      (Mount w opts).dir = (mountAcquire w opts name ref.dockerReference policy).dir ∧
      ((opts.ExtMountDir = "" ∧ post = [] ∧ ∀ ev ∈ pre, ev.call.isParse = true) ∨
        (opts.ExtMountDir ≠ "" ∧
          (∃ pre0, pre = pre0 ++ [⟨.osMkdir opts.ExtMountDir, none⟩] ∧
            ∀ ev ∈ pre0, ev.call.isParse = true) ∧
          (((mountAcquire w opts name ref.dockerReference policy).err = none ∧ post = []) ∨
            ((mountAcquire w opts name ref.dockerReference policy).err ≠ none ∧
              post = [⟨.osRemove opts.ExtMountDir, w.osRemove opts.ExtMountDir⟩])))))

/-- Whether the commit step of a run of `Unmount` was reached and produced
`newImage=true`. -/
def UnmountRun.producedNewImage (u : UnmountRun) : Bool :=
  match u.commitStep with
  | some c => c.newImage
  | none => false

/-! ## The reference grammar the store relies on -/

/-- Whether a name has an empty path component: two consecutive slashes. -/
def hasEmptyPathComponent : List Char → Bool
  | [] => false
  | c :: rest => (c == '/' && rest.head? == some '/') || hasEmptyPathComponent rest

/-- The part of the reference grammar of containers/image the store relies on:
path components of a repository name are non-empty, so
`ParseStoreReference` returns an error for a name that has an empty path
component and does not open with a store specifier `[`.  Everything else about
the collaborators is left open. -/
def RejectsEmptyPathComponent (w : Collaborators) : Prop :=
  ∀ name : String, name.data.head? ≠ some '[' → hasEmptyPathComponent name.data = true →
    ∃ e, w.ParseStoreReference name = .error e

/-! ## Concrete collaborators and requests -/

/-- A working container created from the image `sha256:base`, remembering the
external directory `/mnt/cache`. -/
def sampleBuilder : Builder :=
  ⟨"cid", "sha256:base", "", some [("MOUNT_DIR", "/mnt/cache")]⟩

/-- The storage record of `sampleBuilder`. -/
def sampleContainer : Container := ⟨"cid", ["c"], "sha256:base", "layer1"⟩

/-- Collaborators all of whose calls succeed; the container is unchanged. -/
def okWorld : Collaborators where
  osMkdir := fun _ => none
  osRemove := fun _ => none
  mount := fun _ _ => none
  unmount := fun _ => none
  NewBuilder := fun _ _ _ => .ok ⟨"cid", "sha256:base", "", none⟩
  OpenBuilder := fun _ => .ok sampleBuilder
  OpenBuilderByPath := fun _ => .ok sampleBuilder
  builderMount := fun _ _ => .ok "/var/lib/containers/merged"
  builderSave := fun _ => none
  builderUnmount := fun _ => none
  builderDelete := fun _ => none
  builderCommit := fun _ _ => .ok ("sha256:new", some "localhost/cache/ns/c@sha256:new")
  storeContainer := fun _ => .ok sampleContainer
  storeChanges := fun _ _ => .ok []
  ParseStoreReference := fun name => .ok ⟨name⟩
  ParseImageName := fun name => .ok ⟨name⟩
  pushImage := fun _ _ _ => none

/-- As `okWorld`, but one file of the container was modified. -/
def changedWorld : Collaborators :=
  { okWorld with storeChanges := fun _ _ => .ok [⟨"/data/file", 0⟩] }

/-- As `okWorld`, but no image exists yet: every acquisition except the one
for `scratch` fails with a manifest-unknown error. -/
def coldWorld : Collaborators :=
  { okWorld with
    NewBuilder := fun _ image _ =>
      if image = "scratch" then .ok ⟨"cid", "", "", none⟩
      else .error ⟨"reading manifest latest: manifest unknown", false⟩ }

/-- As `okWorld`, but acquisition is refused. -/
def deniedWorld : Collaborators :=
  { okWorld with NewBuilder := fun _ _ _ => .error ⟨"permission denied", false⟩ }

/-- As `okWorld`, but the bind mount fails. -/
def bindFailsWorld : Collaborators :=
  { okWorld with mount := fun _ _ => some ⟨"mount: operation not permitted", false⟩ }

/-- As `okWorld`, but `/mnt/cache` cannot be removed (it is busy). -/
def busyDirWorld : Collaborators :=
  { okWorld with
    osRemove := fun dir =>
      if dir = "/mnt/cache" then some ⟨"remove /mnt/cache: device or resource busy", false⟩
      else none }

/-- As `okWorld`, with a reference parser that rejects empty path
components. -/
def strictWorld : Collaborators :=
  { okWorld with
    ParseStoreReference := fun name =>
      if hasEmptyPathComponent name.data = true then .error ⟨"invalid reference format", false⟩
      else .ok ⟨name⟩ }

/-- As `okWorld`, but the image is absent and acquisition reports it with a
message of another form. -/
def unknownImageWorld : Collaborators :=
  { okWorld with
    NewBuilder := fun _ _ _ => .error ⟨"localhost/cache/ns/c:latest: image not known", false⟩ }

/-- A request for the internal cache `ns/c`, bound to `/mnt/cache`, committing
on release. -/
def cacheRequest : MountOptions :=
  ⟨⟨none⟩, "", "c", "/mnt/cache", true, "c", "ns"⟩

/-- As `cacheRequest`, but releasing `/mnt/other` instead of the recorded
`/mnt/cache`. -/
def otherDirRequest : MountOptions :=
  ⟨⟨none⟩, "", "c", "/mnt/other", true, "c", "ns"⟩

/-- A request for the internal cache `c` that names no namespace. -/
def noNamespaceRequest : MountOptions :=
  ⟨⟨none⟩, "", "", "/mnt/cache", false, "c", ""⟩

/-- As `cacheRequest`, for the external image `docker://registry/c`. -/
def imageRequest : MountOptions :=
  ⟨⟨none⟩, "docker://registry/c", "c", "/mnt/cache", true, "c", "ns"⟩

/-! ## Path functions on the examples of Go's own test tables -/

theorem Clean_examples :
    Clean "" = "." ∧ Clean "abc/" = "abc" ∧ Clean "/abc/" = "/abc" ∧
    Clean "abc//def//ghi" = "abc/def/ghi" ∧ Clean "abc/./def" = "abc/def" ∧
    Clean "abc/def/../ghi/../jkl" = "abc/jkl" ∧ Clean "/abc/def/../../.." = "/" ∧
    Clean "abc/def/../../../ghi/jkl/../../../mno" = "../../mno" ∧ Clean "/../abc" = "/abc" ∧
    Clean "abc/../../././../def" = "../../def" ∧ Clean "//abc//" = "/abc" := by
  decide

theorem Base_examples :
    Base "" = "." ∧ Base "." = "." ∧ Base "/." = "." ∧ Base "/" = "/" ∧ Base "////" = "/" ∧
    Base "x/" = "x" ∧ Base "abc/def" = "def" ∧ Base "a/b/.x" = ".x" ∧ Base "/a/.." = ".." := by
  decide

/-- `filepath.Base` never returns the empty string, so the first test of
store.go 64 never fires. -/
theorem Base_ne_empty (path : String) : Base path ≠ "" := by
  unfold Base
  split
  · decide
  · dsimp only
    split
    · decide
    · rename_i h
      intro hc
      apply h
      have := congrArg String.data hc
      simpa using this

/-! ## Request validation and naming -/

/-- C3: `validate` returns an error exactly when image and cache name are both
empty, or the external mount directory is non-empty and not absolute; every
other request is accepted. -/
theorem validate_error_iff (o : MountOptions) :
    (o.validate ≠ none ↔
      ((o.Image = "" ∧ o.CacheName = "") ∨ (o.ExtMountDir ≠ "" ∧ IsAbs o.ExtMountDir = false))) ∧
    (((o.Image ≠ "" ∨ o.CacheName ≠ "") ∧ (o.ExtMountDir = "" ∨ IsAbs o.ExtMountDir = true)) →
      o.validate = none) := by
  unfold MountOptions.validate
  by_cases h1 : o.Image = "" ∧ o.CacheName = ""
  · simp [h1]
  · by_cases h2 : o.ExtMountDir = ""
    · simp [h1, h2]
    · cases h3 : IsAbs o.ExtMountDir <;> simp [h1, h2, h3]

theorem validate_error_iff_witness :
    MountOptions.validate ⟨⟨none⟩, "", "", "/mnt/cache", false, "c", "ns"⟩ = none ∧
    MountOptions.validate ⟨⟨none⟩, "", "", "mnt/cache", false, "c", "ns"⟩ ≠ none :=
  ⟨(validate_error_iff ⟨⟨none⟩, "", "", "/mnt/cache", false, "c", "ns"⟩).2 (by decide),
   (validate_error_iff ⟨⟨none⟩, "", "", "mnt/cache", false, "c", "ns"⟩).1.2 (by decide)⟩

/-- C4 as stated fails: for `/var/cache/foo/` the derived container name is
the whole cleaned path `/var/cache/foo`, not its base name `foo`. -/
theorem containerName_not_base_segment :
    ¬ ∀ o : MountOptions, o.ContainerName = "" → o.ExtMountDir ≠ "" →
        ∀ n, o.containerName = .ok n → n = Base (Clean o.ExtMountDir) := by
  intro h
  have h1 := h ⟨⟨none⟩, "", "", "/var/cache/foo/", false, "c", "ns"⟩ rfl (by decide)
    "/var/cache/foo" (by decide)
  revert h1
  decide

/-- C4 amended: with an empty `ContainerName` and a non-empty `ExtMountDir`, a
successful `containerName` returns the cleaned `ExtMountDir` itself, and the
base name of `ExtMountDir` is none of `.`, `..`, `/`. -/
theorem containerName_is_cleaned_dir (o : MountOptions) (n : String)
    (hc : o.ContainerName = "") (hd : o.ExtMountDir ≠ "") (hn : o.containerName = .ok n) :
    n = Clean o.ExtMountDir ∧ Base o.ExtMountDir ≠ "." ∧ Base o.ExtMountDir ≠ ".." ∧
      Base o.ExtMountDir ≠ "/" := by
  unfold MountOptions.containerName at hn
  simp only [hc, hd, ne_eq, not_true_eq_false, not_false_eq_true, if_true, if_false] at hn
  split at hn
  · cases hn
  · rename_i hb
    simp only [not_or] at hb
    injection hn with hn
    exact ⟨hn.symm, hb.2.2.1, hb.2.1, hb.2.2.2⟩

theorem containerName_is_cleaned_dir_witness :
    "/var/cache/foo" = Clean "/var/cache/foo/" ∧ Base "/var/cache/foo/" ≠ "." ∧
      Base "/var/cache/foo/" ≠ ".." ∧ Base "/var/cache/foo/" ≠ "/" :=
  containerName_is_cleaned_dir ⟨⟨none⟩, "", "", "/var/cache/foo/", false, "c", "ns"⟩
    "/var/cache/foo" rfl (by decide) (by decide)

/-- C5 as stated fails: with an explicit container name the bind path is not
inspected, so `ContainerName = "c"` with `ExtMountDir = "/"` is accepted. -/
theorem containerName_explicit_name_skips_path_check :
    ¬ ∀ o : MountOptions, o.ExtMountDir ≠ "" →
        (Base o.ExtMountDir = "" ∨ Base o.ExtMountDir = "." ∨ Base o.ExtMountDir = ".." ∨
          Base o.ExtMountDir = "/") →
        ∃ e, o.containerName = .error e := by
  intro h
  obtain ⟨e, he⟩ := h ⟨⟨none⟩, "", "c", "/", false, "", ""⟩ (by decide) (by decide)
  have hk : MountOptions.containerName ⟨⟨none⟩, "", "c", "/", false, "", ""⟩ = .ok "c" := by
    decide
  rw [hk] at he
  cases he

/-- C5 amended: when `ContainerName` is empty and the base name of a supplied
bind path is empty, `.`, `..` or `/`, `containerName` returns an error whatever
the remaining fields are; when `ContainerName` is non-empty it is returned
without looking at the bind path. -/
theorem containerName_rejects_bad_base (o : MountOptions) :
    (o.ContainerName = "" → o.ExtMountDir ≠ "" →
      (Base o.ExtMountDir = "" ∨ Base o.ExtMountDir = "." ∨ Base o.ExtMountDir = ".." ∨
        Base o.ExtMountDir = "/") →
      ∃ e, o.containerName = .error e) ∧
    (o.ContainerName ≠ "" → o.containerName = .ok o.ContainerName) := by
  unfold MountOptions.containerName
  constructor
  · intro hc hd hb
    have hb1 : Base o.ExtMountDir = "" ∨ Base o.ExtMountDir = ".." ∨ Base o.ExtMountDir = "." ∨
        Base o.ExtMountDir = "/" := by tauto
    simp only [hc, hd, ne_eq, not_true_eq_false, not_false_eq_true, if_true, if_false, hb1]
    exact ⟨_, rfl⟩
  · intro hc
    simp [hc]

theorem containerName_rejects_bad_base_witness :
    (∃ e, MountOptions.containerName ⟨⟨none⟩, "img", "", "/a/..", true, "", ""⟩ = .error e) ∧
    (∃ e, MountOptions.containerName ⟨⟨none⟩, "", "", "/a/.", false, "c", "ns"⟩ = .error e) ∧
    (∃ e, MountOptions.containerName ⟨⟨none⟩, "", "", "/", false, "c", "ns"⟩ = .error e) :=
  ⟨(containerName_rejects_bad_base ⟨⟨none⟩, "img", "", "/a/..", true, "", ""⟩).1 rfl
      (by decide) (by decide),
   (containerName_rejects_bad_base ⟨⟨none⟩, "", "", "/a/.", false, "c", "ns"⟩).1 rfl
      (by decide) (by decide),
   (containerName_rejects_bad_base ⟨⟨none⟩, "", "", "/", false, "c", "ns"⟩).1 rfl
      (by decide) (by decide)⟩

/-! ## Commit on change -/

theorem unmountAndDelete_ok (w : Collaborators) (dir : String)
    (h : ∀ ev ∈ (unmountAndDelete w dir).2, ev.failure = none) :
    (unmountAndDelete w dir).1 = none := by
  unfold unmountAndDelete at h ⊢
  cases hr : w.osRemove dir with
  | none => simp
  | some e => cases hn : e.notExist <;> simp [hr, hn] at h ⊢

theorem commit_unchanged (w : Collaborators) (builder : Builder) (ref : ImageReference)
    (c : Container) (hc : w.storeContainer builder.ContainerID = .ok c)
    (hch : w.storeChanges "" c.LayerID = .ok []) (hid : c.ImageID ≠ "") :
    commit w builder (some ref) =
      ⟨c.ImageID, none, false, none,
        [⟨.storeContainer builder.ContainerID, none⟩, ⟨.storeChanges c.LayerID, none⟩]⟩ := by
  unfold commit
  simp [hc, hch, hid]

theorem resolveCommitPush_unchanged (w : Collaborators) (opts : MountOptions)
    (builder : Builder) (c : Container) (hc : w.storeContainer builder.ContainerID = .ok c)
    (hch : w.storeChanges "" c.LayerID = .ok []) (hid : c.ImageID ≠ "")
    (hall : ∀ ev ∈ (resolveCommitPush w opts builder).trace, ev.failure = none) :
    (resolveCommitPush w opts builder).imageID = c.ImageID ∧
      (resolveCommitPush w opts builder).newImage = false ∧
      (resolveCommitPush w opts builder).err = none := by
  unfold resolveCommitPush at hall ⊢
  cases hp : w.ParseStoreReference (localImageName opts) with
  | error e => simp [storeImageRef, hp] at hall
  | ok localRef =>
    by_cases hi : opts.Image = ""
    · simp [storeImageRef, hp, pushTarget, hi, commitThenPush,
        commit_unchanged w builder localRef c hc hch hid]
    · cases hq : w.ParseImageName opts.Image with
      | error e => simp [storeImageRef, hp, pushTarget, hi, imageRef, hq] at hall
      | ok r =>
        simp [storeImageRef, hp, pushTarget, hi, imageRef, hq, commitThenPush,
          commit_unchanged w builder localRef c hc hch hid]

theorem unmountRelease_unchanged (w : Collaborators) (opts : MountOptions) (builder : Builder)
    (c : Container) (hc : w.storeContainer builder.ContainerID = .ok c)
    (hch : w.storeChanges "" c.LayerID = .ok []) (hid : c.ImageID ≠ "")
    (hcommit : opts.Commit = true)
    (hall : ∀ ev ∈ (unmountRelease w opts builder none).trace, ev.failure = none) :
    (unmountRelease w opts builder none).imageID = c.ImageID ∧
      (unmountRelease w opts builder none).newImage = false ∧
      (unmountRelease w opts builder none).err = none := by
  unfold unmountRelease at hall ⊢
  cases hu : w.builderUnmount builder with
  | some e => simp [hu] at hall
  | none =>
    simp only [hu, hcommit] at hall ⊢
    simp only [ne_eq, not_true_eq_false, false_and, if_false, Bool.not_true, Bool.false_eq_true,
      or_self, List.mem_cons] at hall ⊢
    exact resolveCommitPush_unchanged w opts builder c hc hch hid
      (fun ev hev => hall ev (Or.inr hev))

theorem releaseRecorded_ok (w : Collaborators) (opts : MountOptions) (builder : Builder)
    (h : ∀ ev ∈ (releaseRecorded w opts builder).2, ev.failure = none) :
    (releaseRecorded w opts builder).1 = none := by
  unfold releaseRecorded at h ⊢
  cases ha : builder.Args with
  | none => rfl
  | some args =>
    simp only [ha] at h ⊢
    split
    · rename_i hd
      rw [if_pos hd] at h
      exact unmountAndDelete_ok w _ h
    · rfl

theorem unmountLocated_unchanged (w : Collaborators) (opts : MountOptions) (builder : Builder)
    (c : Container) (t : List Event) (hc : w.storeContainer builder.ContainerID = .ok c)
    (hch : w.storeChanges "" c.LayerID = .ok []) (hid : c.ImageID ≠ "")
    (hcommit : opts.Commit = true) (b : Builder) (r : UnmountRun)
    (hb : unmountLocated w opts builder t = .located b r)
    (hall : ∀ ev ∈ r.trace, ev.failure = none) :
    b = builder ∧ r.imageID = c.ImageID ∧ r.newImage = false ∧ r.err = none := by
  unfold unmountLocated at hb
  simp only [UnmountBody.located.injEq] at hb
  obtain ⟨hb1, hb2⟩ := hb
  subst hb2
  simp only [List.mem_append] at hall
  have hrec := releaseRecorded_ok w opts builder (fun ev hev => hall ev (Or.inl (Or.inr hev)))
  simp only [hrec] at hall ⊢
  have h := unmountRelease_unchanged w opts builder c hc hch hid hcommit
    (fun ev hev => hall ev (Or.inr hev))
  exact ⟨hb1.symm, h⟩

/-- C1: given the container and its change set, `commit` with a non-nil target
reference returns the base image ID with `newImage=false` without calling the
builder's commit exactly when the change set is empty and the base image ID is
non-empty; otherwise it calls the builder's commit exactly once and returns the
committed ID with `newImage=true` when that succeeds.  Hence `Unmount` with
`Commit=true` on an unchanged container with a base image returns
`(base image ID, false, nil)` when every collaborator call of the run
succeeds. -/
theorem commit_only_on_change (w : Collaborators) (builder : Builder) (ref : ImageReference)
    (c : Container) (changes : List Change)
    (hc : w.storeContainer builder.ContainerID = .ok c)
    (hch : w.storeChanges "" c.LayerID = .ok changes) :
    (((commit w builder (some ref)).newImage = false ∧
        (commit w builder (some ref)).imageID = c.ImageID ∧
        countCalls Call.isBuilderCommit (commit w builder (some ref)).trace = 0) ↔
      (changes = [] ∧ c.ImageID ≠ "")) ∧
    ((changes = [] ∧ c.ImageID ≠ "") → (commit w builder (some ref)).err = none) ∧
    (¬ (changes = [] ∧ c.ImageID ≠ "") →
      countCalls Call.isBuilderCommit (commit w builder (some ref)).trace = 1 ∧
      (⟨.builderCommit builder.ContainerID, failureOf (w.builderCommit builder ref)⟩ : Event) ∈
        (commit w builder (some ref)).trace ∧
      ∀ id cref, w.builderCommit builder ref = .ok (id, cref) →
        (commit w builder (some ref)).imageID = id ∧
        (commit w builder (some ref)).newImage = true ∧
        (commit w builder (some ref)).err = none) ∧
    (∀ (opts : MountOptions) (name : String),
      opts.validate = none → (opts.ContainerName ≠ "" ∨ opts.ExtMountDir ≠ "") →
      opts.containerName = .ok name → w.OpenBuilder name = .ok builder →
      opts.Commit = true → changes = [] → c.ImageID ≠ "" →
      (∀ ev ∈ (Unmount w opts).trace, ev.failure = none) →
      (Unmount w opts).imageID = c.ImageID ∧ (Unmount w opts).newImage = false ∧
        (Unmount w opts).err = none) := by
  refine ⟨?_, ?_, ?_, ?_⟩
  · unfold commit
    simp only [hc, hch]
    by_cases h0 : changes = []
    · by_cases hid : c.ImageID = ""
      · cases hb : w.builderCommit builder ref with
        | error e => simp [h0, hid, countCalls, Call.isBuilderCommit]
        | ok p => simp [h0, hid, countCalls, Call.isBuilderCommit]
      · simp [h0, hid, countCalls, Call.isBuilderCommit]
    · have hl : changes.length ≠ 0 := by simpa using h0
      cases hb : w.builderCommit builder ref with
      | error e => simp [h0, hl, countCalls, Call.isBuilderCommit]
      | ok p => simp [h0, hl, countCalls, Call.isBuilderCommit]
  · rintro ⟨h0, hid⟩
    subst h0
    rw [commit_unchanged w builder ref c hc hch hid]
  · intro hne
    unfold commit
    simp only [hc, hch]
    by_cases h0 : changes = []
    · have hid : c.ImageID = "" := by
        by_contra hid
        exact hne ⟨h0, hid⟩
      cases hb : w.builderCommit builder ref with
      | error e => simp [h0, hid, countCalls, Call.isBuilderCommit, failureOf]
      | ok p =>
        simp only [h0, hid, countCalls, Call.isBuilderCommit, failureOf]
        simp
        rintro id cref rfl
        rfl
    · have hl : changes.length ≠ 0 := by simpa using h0
      cases hb : w.builderCommit builder ref with
      | error e => simp [h0, hl, countCalls, Call.isBuilderCommit, failureOf]
      | ok p =>
        simp only [h0, hl, countCalls, Call.isBuilderCommit, failureOf]
        simp
        rintro id cref rfl
        rfl
  · intro opts name hv hgiven hname hopen hcommit h0 hid hall
    subst h0
    have hg : ¬ (opts.ContainerName = "" ∧ opts.ExtMountDir = "") := by tauto
    have hbody : unmountBody w opts = unmountLocated w opts builder
        ((releaseRequested w opts).2 ++ [⟨.OpenBuilder name, none⟩]) := by
      unfold unmountBody
      simp only [hv, hg, hname, hopen, if_false]
    cases hl : unmountLocated w opts builder
        ((releaseRequested w opts).2 ++ [⟨.OpenBuilder name, none⟩]) with
    | early r => simp [unmountLocated] at hl
    | located b r =>
      have hU : Unmount w opts = deferDelete w opts b r := by
        unfold Unmount
        rw [hbody, hl]
      rw [hU] at hall ⊢
      have hr : ∀ ev ∈ r.trace, ev.failure = none := by
        intro ev hev
        apply hall
        unfold deferDelete
        split
        · simp [hev]
        · exact hev
      obtain ⟨hb, h1, h2, h3⟩ := unmountLocated_unchanged w opts builder c _ hc hch hid hcommit b r hl hr
      unfold deferDelete at hall ⊢
      by_cases hctx : opts.Context.Err = none
      · simp only [hctx, if_true] at hall ⊢
        have hd : w.builderDelete b = none := by
          have := hall ⟨.builderDelete b.ContainerID, w.builderDelete b⟩ (by simp)
          simpa using this
        simp [hd, h1, h2, h3]
      · simp [hctx, h1, h2, h3]

theorem commit_only_on_change_witness :
    (commit okWorld sampleBuilder (some ⟨"localhost/cache/ns/c:latest"⟩)).err = none ∧
    ((Unmount okWorld cacheRequest).imageID = "sha256:base" ∧
      (Unmount okWorld cacheRequest).newImage = false ∧
      (Unmount okWorld cacheRequest).err = none) ∧
    countCalls Call.isBuilderCommit
      (commit changedWorld sampleBuilder (some ⟨"localhost/cache/ns/c:latest"⟩)).trace = 1 :=
  ⟨(commit_only_on_change okWorld sampleBuilder ⟨"localhost/cache/ns/c:latest"⟩
      sampleContainer [] rfl rfl).2.1 ⟨rfl, by decide⟩,
   (commit_only_on_change okWorld sampleBuilder ⟨"localhost/cache/ns/c:latest"⟩
      sampleContainer [] rfl rfl).2.2.2 cacheRequest "c" (by decide) (by decide) (by decide)
      rfl rfl rfl (by decide) (by decide),
   ((commit_only_on_change changedWorld sampleBuilder ⟨"localhost/cache/ns/c:latest"⟩
      sampleContainer [⟨"/data/file", 0⟩] rfl rfl).2.2.1 (by decide)).1⟩

/-! ## Push gating -/

theorem countCalls_append (p : Call → Bool) (a b : List Event) :
    countCalls p (a ++ b) = countCalls p a + countCalls p b := by
  unfold countCalls
  exact List.countP_append _ a b

theorem countCalls_nil (p : Call → Bool) : countCalls p [] = 0 := rfl

theorem countCalls_cons (p : Call → Bool) (ev : Event) (t : List Event) :
    countCalls p (ev :: t) = countCalls p t + (if p ev.call = true then 1 else 0) := by
  unfold countCalls
  exact List.countP_cons _ ev t

theorem countCalls_eq_zero (p : Call → Bool) (t : List Event)
    (h : ∀ ev ∈ t, p ev.call = false) : countCalls p t = 0 := by
  unfold countCalls
  rw [List.countP_eq_zero]
  intro ev hev
  simp [h ev hev]

theorem storeImageRef_calls (w : Collaborators) (name : String) :
    ∀ ev ∈ (storeImageRef w name).2, ev.call = .ParseStoreReference name := by
  unfold storeImageRef
  cases w.ParseStoreReference name <;> simp

theorem imageRef_calls (w : Collaborators) (o : MountOptions) :
    ∀ ev ∈ (imageRef w o).2,
      ev.call = .ParseStoreReference (localImageName o) ∨ ev.call = .ParseImageName o.Image := by
  unfold imageRef
  split
  · split
    · simp
    · intro ev hev
      exact Or.inl (storeImageRef_calls w _ ev hev)
  · cases w.ParseImageName o.Image <;> simp

theorem unmountAndDelete_calls (w : Collaborators) (dir : String) :
    ∀ ev ∈ (unmountAndDelete w dir).2, ev.call = .unmount dir ∨ ev.call = .osRemove dir := by
  unfold unmountAndDelete
  cases hr : w.osRemove dir with
  | none => simp
  | some e => cases hn : e.notExist <;> simp [hn]

theorem commit_calls (w : Collaborators) (b : Builder) (r : Option ImageReference) :
    ∀ ev ∈ (commit w b r).trace,
      ev.call = .storeContainer b.ContainerID ∨ (∃ l, ev.call = .storeChanges l) ∨
        ev.call = .builderCommit b.ContainerID := by
  unfold commit
  cases hc : w.storeContainer b.ContainerID with
  | error e => simp
  | ok c =>
    dsimp only
    cases hch : w.storeChanges "" c.LayerID with
    | error e => simp
    | ok changes =>
      cases r with
      | none => simp
      | some ref =>
        dsimp only
        cases hb : w.builderCommit b ref <;> by_cases h0 : changes.length = 0 <;>
          by_cases hid : c.ImageID = "" <;> simp [h0, hid]

theorem commit_err_newImage (w : Collaborators) (b : Builder) (r : Option ImageReference)
    (e : Err) (h : (commit w b r).err = some e) : (commit w b r).newImage = false := by
  unfold commit at h ⊢
  cases hc : w.storeContainer b.ContainerID with
  | error e => simp
  | ok c =>
    simp only [hc] at h ⊢
    cases hch : w.storeChanges "" c.LayerID with
    | error e => simp
    | ok changes =>
      simp only [hch] at h ⊢
      cases r with
      | none => simp
      | some ref =>
        dsimp only at h ⊢
        cases hb : w.builderCommit b ref <;> by_cases h0 : changes.length = 0 <;>
          by_cases hid : c.ImageID = "" <;> simp [hb, h0, hid] at h ⊢

theorem pushTarget_calls (w : Collaborators) (o : MountOptions) :
    ∀ ev ∈ (pushTarget w o).2,
      ev.call = .ParseStoreReference (localImageName o) ∨ ev.call = .ParseImageName o.Image := by
  unfold pushTarget
  split
  · rcases hq : imageRef w o with ⟨_ | r, t⟩
    · intro ev hev
      exact imageRef_calls w o ev (by rw [hq]; exact hev)
    · intro ev hev
      exact imageRef_calls w o ev (by rw [hq]; exact hev)
  · simp

theorem commitThenPush_push (w : Collaborators) (opts : MountOptions) (b : Builder)
    (localRef : ImageReference) (target : Option ImageReference) :
    countCalls Call.isPushImage (commitThenPush w opts b localRef target).trace =
      (if (commitThenPush w opts b localRef target).producedNewImage = true ∧ opts.Image ≠ ""
        then 1 else 0) ∧
    (commitThenPush w opts b localRef target).commitStep = some (commit w b (some localRef)) := by
  have htc : countCalls Call.isPushImage (commit w b (some localRef)).trace = 0 := by
    apply countCalls_eq_zero
    intro ev hev
    rcases commit_calls w b _ ev hev with h | ⟨l, h⟩ | h <;> simp [h, Call.isPushImage]
  unfold commitThenPush
  dsimp only
  cases hce : (commit w b (some localRef)).err with
  | some e =>
    have hn := commit_err_newImage w b _ e hce
    simp [htc, UnmountRun.producedNewImage, hn]
  | none =>
    dsimp only
    by_cases hg : (commit w b (some localRef)).newImage = true ∧ opts.Image ≠ ""
    · rw [if_pos hg]
      cases hp : w.pushImage (commit w b (some localRef)).ref
          (commit w b (some localRef)).imageID target <;>
        simp [countCalls_append, countCalls_cons, countCalls_nil, htc, Call.isPushImage,
          UnmountRun.producedNewImage, hg]
    · rw [if_neg hg]
      simp only [UnmountRun.producedNewImage, htc, if_neg hg, and_self]

theorem resolveCommitPush_push (w : Collaborators) (opts : MountOptions) (b : Builder) :
    countCalls Call.isPushImage (resolveCommitPush w opts b).trace =
      (if (resolveCommitPush w opts b).producedNewImage = true ∧ opts.Image ≠ "" then 1 else 0) ∧
    (∀ c, (resolveCommitPush w opts b).commitStep = some c → ∃ ref, c = commit w b (some ref)) := by
  unfold resolveCommitPush
  rcases hs : storeImageRef w (localImageName opts) with ⟨_ | localRef, t2⟩
  all_goals
    have ht2 : countCalls Call.isPushImage t2 = 0 := by
      apply countCalls_eq_zero
      intro ev hev
      have := storeImageRef_calls w (localImageName opts) ev (by rw [hs]; exact hev)
      simp [this, Call.isPushImage]
  · simp [ht2, UnmountRun.producedNewImage]
  · dsimp only
    rcases hq : pushTarget w opts with ⟨_ | target, t3⟩
    all_goals
      have ht3 : countCalls Call.isPushImage t3 = 0 := by
        apply countCalls_eq_zero
        intro ev hev
        rcases pushTarget_calls w opts ev (by rw [hq]; exact hev) with h | h <;>
          simp [h, Call.isPushImage]
    · simp [countCalls_append, ht2, ht3, UnmountRun.producedNewImage]
    · have h := commitThenPush_push w opts b localRef target
      dsimp only
      refine ⟨?_, ?_⟩
      · rw [countCalls_append, countCalls_append, ht2, ht3, h.1]
        simp [UnmountRun.producedNewImage]
      · intro c hc
        exact ⟨localRef, by rw [h.2] at hc; exact (Option.some.inj hc).symm⟩

theorem unmountRelease_push (w : Collaborators) (opts : MountOptions) (b : Builder)
    (err : Option Err) :
    countCalls Call.isPushImage (unmountRelease w opts b err).trace =
      (if (unmountRelease w opts b err).producedNewImage = true ∧ opts.Image ≠ "" then 1 else 0) ∧
    ((unmountRelease w opts b err).commitStep ≠ none →
      opts.Commit = true ∧ w.builderUnmount b = none ∧ err = none) ∧
    (∀ c, (unmountRelease w opts b err).commitStep = some c →
      ∃ ref, c = commit w b (some ref)) := by
  unfold unmountRelease
  dsimp only
  by_cases h1 : (if w.builderUnmount b ≠ none ∧ err = none then
      Option.map Err.ext (w.builderUnmount b) else err) ≠ none ∨ (!opts.Commit) = true
  · rw [if_pos h1]
    simp [countCalls_cons, countCalls_nil, Call.isPushImage, UnmountRun.producedNewImage]
  · rw [if_neg h1]
    have hcommit : opts.Commit = true := by
      by_contra hc
      exact h1 (Or.inr (by simpa using hc))
    have hpre : w.builderUnmount b = none ∧ err = none := by
      by_contra hc
      apply h1
      left
      cases hu : w.builderUnmount b <;> cases he : err <;> simp [hu, he] at hc ⊢
    have h := resolveCommitPush_push w opts b
    refine ⟨?_, fun _ => ⟨hcommit, hpre⟩, h.2⟩
    have hcons : countCalls Call.isPushImage
        (⟨.builderUnmount b.ContainerID, w.builderUnmount b⟩ :: (resolveCommitPush w opts b).trace) =
        countCalls Call.isPushImage (resolveCommitPush w opts b).trace := by
      simp [countCalls_cons, Call.isPushImage]
    rw [hcons, h.1]
    simp [UnmountRun.producedNewImage]

theorem commitThenPush_calls (w : Collaborators) (opts : MountOptions) (b : Builder)
    (localRef : ImageReference) (target : Option ImageReference) :
    ∀ ev ∈ (commitThenPush w opts b localRef target).trace, ev.call.isCommitPhase = true := by
  have hc : ∀ ev ∈ (commit w b (some localRef)).trace, ev.call.isCommitPhase = true := by
    intro ev hev
    rcases commit_calls w b _ ev hev with h | ⟨l, h⟩ | h <;> simp [h, Call.isCommitPhase]
  unfold commitThenPush
  dsimp only
  cases hce : (commit w b (some localRef)).err with
  | some e => exact hc
  | none =>
    dsimp only
    split
    · cases hp : w.pushImage (commit w b (some localRef)).ref
          (commit w b (some localRef)).imageID target <;>
      · intro ev hev
        simp only [List.mem_append, List.mem_singleton] at hev
        rcases hev with hev | hev
        · exact hc ev hev
        · simp [hev, Call.isCommitPhase]
    · exact hc

theorem resolveCommitPush_calls (w : Collaborators) (opts : MountOptions) (b : Builder) :
    ∀ ev ∈ (resolveCommitPush w opts b).trace, ev.call.isCommitPhase = true := by
  unfold resolveCommitPush
  rcases hs : storeImageRef w (localImageName opts) with ⟨_ | localRef, t2⟩
  all_goals
    have ht2 : ∀ ev ∈ t2, ev.call.isCommitPhase = true := by
      intro ev hev
      have := storeImageRef_calls w (localImageName opts) ev (by rw [hs]; exact hev)
      simp [this, Call.isCommitPhase]
  · exact ht2
  · dsimp only
    rcases hq : pushTarget w opts with ⟨_ | target, t3⟩
    all_goals
      have ht3 : ∀ ev ∈ t3, ev.call.isCommitPhase = true := by
        intro ev hev
        rcases pushTarget_calls w opts ev (by rw [hq]; exact hev) with h | h <;>
          simp [h, Call.isCommitPhase]
    · intro ev hev
      rcases List.mem_append.1 hev with h | h
      · exact ht2 ev h
      · exact ht3 ev h
    · intro ev hev
      dsimp only at hev
      rcases List.mem_append.1 hev with h | h
      · rcases List.mem_append.1 h with h | h
        · exact ht2 ev h
        · exact ht3 ev h
      · exact commitThenPush_calls w opts b localRef target ev h

theorem unmountRelease_trace (w : Collaborators) (opts : MountOptions) (b : Builder)
    (err : Option Err) :
    ∃ t, (unmountRelease w opts b err).trace =
        ⟨.builderUnmount b.ContainerID, w.builderUnmount b⟩ :: t ∧
      ∀ ev ∈ t, ev.call.isCommitPhase = true := by
  unfold unmountRelease
  dsimp only
  by_cases h1 : (if w.builderUnmount b ≠ none ∧ err = none then
      Option.map Err.ext (w.builderUnmount b) else err) ≠ none ∨ (!opts.Commit) = true
  · rw [if_pos h1]
    exact ⟨[], rfl, by simp⟩
  · rw [if_neg h1]
    exact ⟨_, rfl, resolveCommitPush_calls w opts b⟩

theorem releaseRequested_calls (w : Collaborators) (opts : MountOptions) :
    ∀ ev ∈ (releaseRequested w opts).2, ev.call.isPrelude = true := by
  unfold releaseRequested
  dsimp only
  split
  · intro ev hev
    rcases unmountAndDelete_calls w _ ev hev with h | h <;> simp [h, Call.isPrelude]
  · simp

theorem releaseRecorded_calls (w : Collaborators) (opts : MountOptions) (b : Builder) :
    ∀ ev ∈ (releaseRecorded w opts b).2, ev.call.isPrelude = true := by
  unfold releaseRecorded
  cases b.Args with
  | none => simp
  | some args =>
    dsimp only
    split
    · intro ev hev
      rcases unmountAndDelete_calls w _ ev hev with h | h <;> simp [h, Call.isPrelude]
    · simp

/-- Shape of a run that located its container: calls of the prelude, then
`unmountRelease` for the located builder. -/
theorem unmountBody_located (w : Collaborators) (opts : MountOptions) (b : Builder)
    (r : UnmountRun) (h : unmountBody w opts = .located b r) :
    ∃ t, (∀ ev ∈ t, ev.call.isPrelude = true) ∧
      r = { unmountRelease w opts b (releaseRecorded w opts b).1 with
            trace := t ++ (unmountRelease w opts b (releaseRecorded w opts b).1).trace } ∧
      (w.OpenBuilder (MountOptions.containerName opts |>.toOption.getD "") = .ok b ∨
        w.OpenBuilderByPath opts.ExtMountDir = .ok b) := by
  have key : ∀ (b0 : Builder) (t0 : List Event), (∀ ev ∈ t0, ev.call.isPrelude = true) →
      unmountLocated w opts b0 t0 = .located b r →
      b0 = b ∧ ∃ t, (∀ ev ∈ t, ev.call.isPrelude = true) ∧
        r = { unmountRelease w opts b (releaseRecorded w opts b).1 with
              trace := t ++ (unmountRelease w opts b (releaseRecorded w opts b).1).trace } := by
    intro b0 t0 ht0 hl
    unfold unmountLocated at hl
    simp only [UnmountBody.located.injEq] at hl
    obtain ⟨hb, hr⟩ := hl
    subst hb
    refine ⟨rfl, t0 ++ (releaseRecorded w opts b0).2, ?_, hr.symm⟩
    intro ev hev
    rcases List.mem_append.1 hev with h1 | h1
    · exact ht0 ev h1
    · exact releaseRecorded_calls w opts b0 ev h1
  unfold unmountBody at h
  split at h
  · cases h
  · split at h
    · cases h
    · split at h
      · cases h
      · rename_i name hname
        dsimp only at h
        have hreq := releaseRequested_calls w opts
        cases ho : w.OpenBuilder name with
        | ok b0 =>
          rw [ho] at h
          dsimp only at h
          obtain ⟨hb, t, ht, hr⟩ := key b0 _ (by
            intro ev hev
            rcases List.mem_append.1 hev with h1 | h1
            · exact hreq ev h1
            · simp only [List.mem_singleton] at h1
              simp [h1, Call.isPrelude]) h
          refine ⟨t, ht, hr, Or.inl ?_⟩
          simp [hname, Except.toOption, ho, hb]
        | error e =>
          rw [ho] at h
          dsimp only at h
          split at h
          · cases hp : w.OpenBuilderByPath opts.ExtMountDir with
            | error e1 =>
              rw [hp] at h
              cases h
            | ok b0 =>
              rw [hp] at h
              dsimp only at h
              obtain ⟨hb, t, ht, hr⟩ := key b0 _ (by
                intro ev hev
                rcases List.mem_append.1 hev with h1 | h1
                · exact hreq ev h1
                · simp only [List.mem_cons, List.mem_singleton, List.not_mem_nil, or_false] at h1
                  rcases h1 with h1 | h1 <;> simp [h1, Call.isPrelude]) h
              exact ⟨t, ht, hr, Or.inr (by rw [hb])⟩
          · cases h

/-- Shape of a run that returned before locating a container. -/
theorem unmountBody_early (w : Collaborators) (opts : MountOptions) (r : UnmountRun)
    (h : unmountBody w opts = .early r) :
    (∀ ev ∈ r.trace, ev.call.isPrelude = true) ∧ r.commitStep = none ∧ r.err ≠ none := by
  unfold unmountBody at h
  split at h
  · cases h
    simp
  · split at h
    · cases h
      simp
    · split at h
      · cases h
        simp
      · rename_i name hname
        dsimp only at h
        have hreq := releaseRequested_calls w opts
        cases ho : w.OpenBuilder name with
        | ok b0 =>
          rw [ho] at h
          simp [unmountLocated] at h
        | error e =>
          rw [ho] at h
          dsimp only at h
          split at h
          · cases hp : w.OpenBuilderByPath opts.ExtMountDir with
            | error e1 =>
              rw [hp] at h
              cases h
              refine ⟨?_, rfl, by simp⟩
              intro ev hev
              rcases List.mem_append.1 hev with h1 | h1
              · exact hreq ev h1
              · simp only [List.mem_cons, List.mem_singleton, List.not_mem_nil, or_false] at h1
                rcases h1 with h1 | h1 <;> simp [h1, Call.isPrelude]
            | ok b0 =>
              rw [hp] at h
              simp [unmountLocated] at h
          · cases h
            refine ⟨?_, rfl, by simp⟩
            intro ev hev
            rcases List.mem_append.1 hev with h1 | h1
            · exact hreq ev h1
            · simp only [List.mem_singleton] at h1
              simp [h1, Call.isPrelude]

theorem isPrelude_not_push (c : Call) (h : c.isPrelude = true) :
    c.isPushImage = false ∧ c.isBuilderDelete = false ∧ c.isBuilderUnmount = false := by
  cases c <;> simp_all [Call.isPrelude, Call.isPushImage, Call.isBuilderDelete,
    Call.isBuilderUnmount]

theorem isCommitPhase_not_delete (c : Call) (h : c.isCommitPhase = true) :
    c.isBuilderDelete = false ∧ c.isBuilderUnmount = false := by
  cases c <;> simp_all [Call.isCommitPhase, Call.isBuilderDelete, Call.isBuilderUnmount]

/-- C2: a run of `Unmount` calls the registry push exactly once when its commit
step produced `newImage=true` and `Image` is non-empty, and never otherwise; in
particular not when `Commit=false`, when unmounting the container failed, or
when no image was named. -/
theorem push_only_for_new_image (w : Collaborators) (opts : MountOptions) :
    (((Unmount w opts).producedNewImage = true ∧ opts.Image ≠ "") →
      countCalls Call.isPushImage (Unmount w opts).trace = 1) ∧
    (¬ ((Unmount w opts).producedNewImage = true ∧ opts.Image ≠ "") →
      countCalls Call.isPushImage (Unmount w opts).trace = 0) ∧
    (∀ c, (Unmount w opts).commitStep = some c → ∃ b ref, c = commit w b (some ref)) ∧
    (opts.Commit = false → countCalls Call.isPushImage (Unmount w opts).trace = 0) ∧
    ((∃ ev ∈ (Unmount w opts).trace, ev.call.isBuilderUnmount = true ∧ ev.failure ≠ none) →
      countCalls Call.isPushImage (Unmount w opts).trace = 0) ∧
    (opts.Image = "" → countCalls Call.isPushImage (Unmount w opts).trace = 0) := by
  cases hb : unmountBody w opts with
  | early r =>
    obtain ⟨ht, hcs, _⟩ := unmountBody_early w opts r hb
    have hU : Unmount w opts = r := by
      unfold Unmount
      rw [hb]
    have h0 : countCalls Call.isPushImage r.trace = 0 :=
      countCalls_eq_zero _ _ (fun ev hev => (isPrelude_not_push _ (ht ev hev)).1)
    rw [hU]
    refine ⟨?_, fun _ => h0, ?_, fun _ => h0, fun _ => h0, fun _ => h0⟩
    · intro h
      simp [UnmountRun.producedNewImage, hcs] at h
    · intro c hc
      rw [hcs] at hc
      cases hc
  | located b r =>
    obtain ⟨t, ht, hr, _⟩ := unmountBody_located w opts b r hb
    obtain ⟨hcount, hreach, hghost⟩ := unmountRelease_push w opts b (releaseRecorded w opts b).1
    obtain ⟨t1, htr, ht1⟩ := unmountRelease_trace w opts b (releaseRecorded w opts b).1
    have hU : Unmount w opts = deferDelete w opts b r := by
      unfold Unmount
      rw [hb]
    have hcs : (Unmount w opts).commitStep =
        (unmountRelease w opts b (releaseRecorded w opts b).1).commitStep := by
      rw [hU, hr]
      unfold deferDelete
      split <;> rfl
    have hpn : (Unmount w opts).producedNewImage =
        (unmountRelease w opts b (releaseRecorded w opts b).1).producedNewImage := by
      unfold UnmountRun.producedNewImage
      rw [hcs]
    have htrace : ∃ d, (Unmount w opts).trace =
        t ++ (unmountRelease w opts b (releaseRecorded w opts b).1).trace ++ d ∧
        ∀ ev ∈ d, ev.call.isBuilderDelete = true := by
      rw [hU, hr]
      unfold deferDelete
      split
      · exact ⟨_, rfl, by simp [Call.isBuilderDelete]⟩
      · exact ⟨[], by simp, by simp⟩
    obtain ⟨d, hd, hdel⟩ := htrace
    have hpt : countCalls Call.isPushImage t = 0 :=
      countCalls_eq_zero _ _ (fun ev hev => (isPrelude_not_push _ (ht ev hev)).1)
    have hpd : countCalls Call.isPushImage d = 0 := by
      apply countCalls_eq_zero
      intro ev hev
      have := hdel ev hev
      revert this
      cases ev.call <;> simp [Call.isBuilderDelete, Call.isPushImage]
    have hc : countCalls Call.isPushImage (Unmount w opts).trace =
        (if (Unmount w opts).producedNewImage = true ∧ opts.Image ≠ "" then 1 else 0) := by
      rw [hd, countCalls_append, countCalls_append, hpt, hpd, hcount, hpn]
      simp
    have hzero : (Unmount w opts).commitStep = none →
        countCalls Call.isPushImage (Unmount w opts).trace = 0 := by
      intro hn
      rw [hc, if_neg]
      simp [UnmountRun.producedNewImage, hn]
    refine ⟨?_, ?_, ?_, ?_, ?_, ?_⟩
    · intro h
      rw [hc, if_pos h]
    · intro h
      rw [hc, if_neg h]
    · intro c hcm
      rw [hcs] at hcm
      obtain ⟨ref, href⟩ := hghost c hcm
      exact ⟨b, ref, href⟩
    · intro hcommit
      apply hzero
      by_contra hne
      rw [hcs] at hne
      have := (hreach hne).1
      rw [hcommit] at this
      cases this
    · rintro ⟨ev, hev, hkind, hfail⟩
      apply hzero
      by_contra hne
      rw [hcs] at hne
      have hu := (hreach hne).2.1
      rw [hd, htr] at hev
      simp only [List.mem_append, List.mem_cons] at hev
      rcases hev with (hev | hev | hev) | hev
      · have := (isPrelude_not_push _ (ht ev hev)).2.2
        rw [hkind] at this
        cases this
      · rw [hev] at hfail
        exact hfail hu
      · have := (isCommitPhase_not_delete _ (ht1 ev hev)).2
        rw [hkind] at this
        cases this
      · have := hdel ev hev
        revert this hkind
        cases ev.call <;> simp [Call.isBuilderDelete, Call.isBuilderUnmount]
    · intro hi
      rw [hc, if_neg]
      simp [hi]

theorem push_only_for_new_image_witness :
    countCalls Call.isPushImage (Unmount changedWorld imageRequest).trace = 1 ∧
    countCalls Call.isPushImage (Unmount okWorld imageRequest).trace = 0 ∧
    countCalls Call.isPushImage (Unmount changedWorld cacheRequest).trace = 0 :=
  ⟨(push_only_for_new_image changedWorld imageRequest).1 (by decide),
   (push_only_for_new_image okWorld imageRequest).2.1 (by decide),
   (push_only_for_new_image changedWorld cacheRequest).2.2.2.2.2 (by decide)⟩

/-! ## Deletion of the working container -/

theorem unmountBody_no_delete (w : Collaborators) (opts : MountOptions) :
    countCalls Call.isBuilderDelete (unmountBody w opts).run.trace = 0 := by
  cases hb : unmountBody w opts with
  | early r =>
    obtain ⟨ht, _, _⟩ := unmountBody_early w opts r hb
    exact countCalls_eq_zero _ _ (fun ev hev => (isPrelude_not_push _ (ht ev hev)).2.1)
  | located b r =>
    obtain ⟨t, ht, hr, _⟩ := unmountBody_located w opts b r hb
    obtain ⟨t1, htr, ht1⟩ := unmountRelease_trace w opts b (releaseRecorded w opts b).1
    show countCalls Call.isBuilderDelete r.trace = 0
    rw [hr]
    apply countCalls_eq_zero
    intro ev hev
    simp only [htr, List.mem_append, List.mem_cons] at hev
    rcases hev with hev | hev | hev
    · exact (isPrelude_not_push _ (ht ev hev)).2.1
    · rw [hev]
      rfl
    · exact (isCommitPhase_not_delete _ (ht1 ev hev)).1

/-- C7: in a run of `Unmount` that located the working container, the
container's `Delete` is called exactly once, as the last call, when the
context is not done, and not at all when it is done; the error of `Delete` is
returned only when the run had no error before, otherwise the earlier error is
returned unchanged. -/
theorem delete_once_unless_context_done (w : Collaborators) (opts : MountOptions) (b : Builder)
    (hb : (unmountBody w opts).builder = some b) :
    (opts.Context.Err = none →
      countCalls Call.isBuilderDelete (Unmount w opts).trace = 1 ∧
      (Unmount w opts).trace =
        (unmountBody w opts).run.trace ++ [⟨.builderDelete b.ContainerID, w.builderDelete b⟩]) ∧
    (opts.Context.Err ≠ none →
      countCalls Call.isBuilderDelete (Unmount w opts).trace = 0 ∧
      (Unmount w opts).err = (unmountBody w opts).run.err) ∧
    ((unmountBody w opts).run.err ≠ none →
      (Unmount w opts).err = (unmountBody w opts).run.err) ∧
    ((unmountBody w opts).run.err = none → opts.Context.Err = none →
      (Unmount w opts).err = (w.builderDelete b).map Err.ext) ∧
    (Unmount w opts).imageID = (unmountBody w opts).run.imageID ∧
    (Unmount w opts).newImage = (unmountBody w opts).run.newImage := by
  have h0 := unmountBody_no_delete w opts
  cases hbody : unmountBody w opts with
  | early r =>
    rw [hbody] at hb
    cases hb
  | located b0 r =>
    rw [hbody] at hb h0
    simp only [UnmountBody.builder, Option.some.injEq] at hb
    subst hb
    simp only [UnmountBody.run] at h0 ⊢
    have hU : Unmount w opts = deferDelete w opts b0 r := by
      unfold Unmount
      rw [hbody]
    rw [hU]
    unfold deferDelete
    by_cases hctx : opts.Context.Err = none
    · simp only [hctx, if_true, ne_eq, not_true_eq_false, false_implies, true_implies,
        countCalls_append, countCalls_cons, countCalls_nil, h0, Call.isBuilderDelete, and_true,
        true_and]
      refine ⟨?_, ?_⟩
      · intro hne
        rw [if_neg (fun h => hne h.2)]
      · intro he
        cases hd : w.builderDelete b0 <;> simp [he]
    · simp [hctx, h0]

theorem delete_once_unless_context_done_witness :
    (countCalls Call.isBuilderDelete (Unmount okWorld cacheRequest).trace = 1 ∧
      (Unmount okWorld cacheRequest).trace =
        (unmountBody okWorld cacheRequest).run.trace ++ [⟨.builderDelete "cid", none⟩]) ∧
    (countCalls Call.isBuilderDelete
        (Unmount okWorld { cacheRequest with Context := ⟨some ⟨"context canceled", false⟩⟩ }).trace
      = 0 ∧
      (Unmount okWorld { cacheRequest with Context := ⟨some ⟨"context canceled", false⟩⟩ }).err =
        (unmountBody okWorld
          { cacheRequest with Context := ⟨some ⟨"context canceled", false⟩⟩ }).run.err) :=
  ⟨(delete_once_unless_context_done okWorld cacheRequest sampleBuilder (by decide)).1 (by decide),
   (delete_once_unless_context_done okWorld
      { cacheRequest with Context := ⟨some ⟨"context canceled", false⟩⟩ } sampleBuilder
      (by decide)).2.1 (by decide)⟩

/-! ## Acquisition and cleanup in `Mount` -/

theorem mountContainer_calls (w : Collaborators) (opts : MountOptions) (b : Builder) :
    ∀ ev ∈ (mountContainer w opts b).2.trace, ev.call.isMountStep = true := by
  unfold mountContainer
  cases hm : w.builderMount b b.MountLabel with
  | error e => simp [Call.isMountStep]
  | ok dir =>
    dsimp only
    split
    · cases hs : w.builderSave { b with Args := some [("MOUNT_DIR", opts.ExtMountDir)] } <;>
        simp [Call.isMountStep]
    · simp [Call.isMountStep]

theorem mountContainer_ok (w : Collaborators) (opts : MountOptions) (b : Builder)
    (h : (mountContainer w opts b).2.err = none) :
    (∀ ev ∈ (mountContainer w opts b).2.trace, ev.failure = none) ∧
    (opts.ExtMountDir ≠ "" → (mountContainer w opts b).2.dir = opts.ExtMountDir) ∧
    (⟨.builderMount b.ContainerID, none⟩ : Event) ∈ (mountContainer w opts b).2.trace := by
  unfold mountContainer at h ⊢
  cases hm : w.builderMount b b.MountLabel with
  | error e => simp [hm] at h
  | ok dir =>
    simp only [hm] at h ⊢
    by_cases hd : opts.ExtMountDir = ""
    · simp [hd]
    · simp only [ne_eq, hd, not_false_eq_true, if_true] at h ⊢
      cases hs : w.builderSave { b with Args := some [("MOUNT_DIR", opts.ExtMountDir)] } with
      | some e => simp [hs] at h
      | none =>
        simp only [hs] at h ⊢
        cases hb : w.mount dir opts.ExtMountDir with
        | some e => simp [hb] at h
        | none => simp

theorem mountContainer_mounts (w : Collaborators) (opts : MountOptions) (b : Builder) :
    (⟨.builderMount b.ContainerID, failureOf (w.builderMount b b.MountLabel)⟩ : Event) ∈
      (mountContainer w opts b).2.trace := by
  unfold mountContainer
  cases hm : w.builderMount b b.MountLabel with
  | error e => simp [failureOf]
  | ok dir =>
    dsimp only
    split
    · cases hs : w.builderSave { b with Args := some [("MOUNT_DIR", opts.ExtMountDir)] } <;>
        simp [failureOf]
    · simp [failureOf]

/-- The deferred container cleanup keeps `dir` and `err` and appends cleanup
calls only when `err` is non-nil. -/
theorem deferContainerCleanup_spec (w : Collaborators) (br : Builder × MountRun) :
    (deferContainerCleanup w br).err = br.2.err ∧ (deferContainerCleanup w br).dir = br.2.dir ∧
    ∃ d, (deferContainerCleanup w br).trace = br.2.trace ++ d ∧
      (∀ ev ∈ d, ev.call.isContainerCleanup = true) ∧ (br.2.err = none → d = []) := by
  unfold deferContainerCleanup
  split
  · rename_i h
    exact ⟨rfl, rfl, _, rfl, by simp [Call.isContainerCleanup], fun h1 => absurd h1 h⟩
  · exact ⟨rfl, rfl, [], by simp, by simp, fun _ => rfl⟩

theorem Mount_shape (w : Collaborators) (opts : MountOptions) : MountShape w opts := by
  -- the part of `Mount` after the image reference is resolved
  have tail : ∀ (name : String) (ref : ImageReference) (policy : PullPolicy) (t : List Event),
      opts.validate = none → opts.containerName = .ok name →
      (opts.Image = "" →
        policy = .PullNever ∧ w.ParseStoreReference (localImageName opts) = .ok ref) →
      (opts.Image ≠ "" → policy = .PullAlways ∧ w.ParseImageName opts.Image = .ok ref) →
      (∀ ev ∈ t, ev.call.isParse = true) →
      Mount w opts =
        (if opts.ExtMountDir ≠ "" then
          match w.osMkdir opts.ExtMountDir with
          | some e => ⟨"", some (.ext e), t ++ [⟨.osMkdir opts.ExtMountDir, some e⟩]⟩
          | none =>
            { deferRemoveDir w opts (mountAcquire w opts name ref.dockerReference policy) with
              trace := t ++ ⟨.osMkdir opts.ExtMountDir, none⟩ ::
                (deferRemoveDir w opts
                  (mountAcquire w opts name ref.dockerReference policy)).trace }
        else
          { mountAcquire w opts name ref.dockerReference policy with
            trace := t ++ (mountAcquire w opts name ref.dockerReference policy).trace }) →
      MountShape w opts := by
    intro name ref policy t hv hn hi1 hi2 ht hM
    unfold MountShape
    by_cases hd : opts.ExtMountDir = ""
    · right
      rw [if_neg (by simpa using hd)] at hM
      refine ⟨name, ref, policy, t, [], hv, hn, hi1, hi2, ?_, ?_, ?_, Or.inl ⟨hd, rfl, ht⟩⟩
      · rw [hM]
        simp
      · rw [hM]
      · rw [hM]
    · rw [if_pos hd] at hM
      cases hmk : w.osMkdir opts.ExtMountDir with
      | some e =>
        left
        rw [hmk] at hM
        rw [hM]
        refine ⟨by simp, rfl, ?_⟩
        intro ev hev
        rcases List.mem_append.1 hev with h | h
        · exact Or.inl (ht ev h)
        · exact Or.inr ⟨e, by simpa using h⟩
      | none =>
        right
        rw [hmk] at hM
        dsimp only at hM
        by_cases hA : (mountAcquire w opts name ref.dockerReference policy).err = none
        · refine ⟨name, ref, policy, t ++ [⟨.osMkdir opts.ExtMountDir, none⟩], [], hv, hn, hi1,
            hi2, ?_, ?_, ?_, Or.inr ⟨hd, ⟨t, rfl, ht⟩, Or.inl ⟨hA, rfl⟩⟩⟩
          · rw [hM]
            simp [deferRemoveDir, hA]
          · rw [hM]
            simp [deferRemoveDir, hA]
          · rw [hM]
            simp [deferRemoveDir, hA]
        · refine ⟨name, ref, policy, t ++ [⟨.osMkdir opts.ExtMountDir, none⟩],
            [⟨.osRemove opts.ExtMountDir, w.osRemove opts.ExtMountDir⟩], hv, hn, hi1,
            hi2, ?_, ?_, ?_, Or.inr ⟨hd, ⟨t, rfl, ht⟩, Or.inr ⟨hA, rfl⟩⟩⟩
          · rw [hM]
            simp [deferRemoveDir, hA]
          · rw [hM]
            simp [deferRemoveDir, hA]
          · rw [hM]
            simp [deferRemoveDir, hA]
  cases hv : opts.validate with
  | some e =>
    unfold MountShape
    left
    simp [Mount, hv]
  | none =>
    cases hn : opts.containerName with
    | error e =>
      unfold MountShape
      left
      simp [Mount, hv, hn]
    | ok name =>
      by_cases hi : opts.Image = ""
      · cases hp : w.ParseStoreReference (localImageName opts) with
        | error e =>
          unfold MountShape
          left
          simp [Mount, hv, hn, hi, storeImageRef, hp, Call.isParse]
        | ok ref =>
          apply tail name ref .PullNever [⟨.ParseStoreReference (localImageName opts), none⟩] hv hn
            (fun _ => ⟨rfl, hp⟩) (fun h => absurd hi h) (by simp [Call.isParse])
          simp [Mount, hv, hn, hi, storeImageRef, hp]
      · cases hp : w.ParseImageName opts.Image with
        | error e =>
          unfold MountShape
          left
          simp [Mount, hv, hn, hi, imageRef, hp, Call.isParse]
        | ok ref =>
          apply tail name ref .PullAlways [⟨.ParseImageName opts.Image, none⟩] hv hn
            (fun h => absurd h hi) (fun _ => ⟨rfl, hp⟩) (by simp [Call.isParse])
          simp [Mount, hv, hn, hi, imageRef, hp]

/-- The four ways `mountAcquire` can go. -/
theorem mountAcquire_cases (w : Collaborators) (opts : MountOptions) (name image : String)
    (policy : PullPolicy) :
    (∃ b, w.NewBuilder name image policy = .ok b ∧
      (mountAcquire w opts name image policy).trace =
        ⟨.NewBuilder name image policy, none⟩ ::
          (deferContainerCleanup w (mountContainer w opts b)).trace ∧
      (mountAcquire w opts name image policy).err = (mountContainer w opts b).2.err ∧
      (mountAcquire w opts name image policy).dir = (mountContainer w opts b).2.dir) ∨
    (∃ e, w.NewBuilder name image policy = .error e ∧ ¬ (notFound e = true ∧ image ≠ "scratch") ∧
      mountAcquire w opts name image policy =
        ⟨"", some (.ext e), [⟨.NewBuilder name image policy, some e⟩]⟩) ∨
    (∃ e e2, w.NewBuilder name image policy = .error e ∧
      (notFound e = true ∧ image ≠ "scratch") ∧
      w.NewBuilder name "scratch" .PullNever = .error e2 ∧
      mountAcquire w opts name image policy =
        ⟨"", some (.ext e2), [⟨.NewBuilder name image policy, some e⟩,
          ⟨.NewBuilder name "scratch" .PullNever, some e2⟩]⟩) ∨
    (∃ e b, w.NewBuilder name image policy = .error e ∧
      (notFound e = true ∧ image ≠ "scratch") ∧
      w.NewBuilder name "scratch" .PullNever = .ok b ∧
      (mountAcquire w opts name image policy).trace =
        ⟨.NewBuilder name image policy, some e⟩ :: ⟨.NewBuilder name "scratch" .PullNever, none⟩ ::
          (deferContainerCleanup w (mountContainer w opts b)).trace ∧
      (mountAcquire w opts name image policy).err = (mountContainer w opts b).2.err ∧
      (mountAcquire w opts name image policy).dir = (mountContainer w opts b).2.dir) := by
  unfold mountAcquire
  cases h1 : w.NewBuilder name image policy with
  | ok b =>
    left
    have h := deferContainerCleanup_spec w (mountContainer w opts b)
    exact ⟨b, rfl, rfl, h.1, h.2.1⟩
  | error e =>
    right
    dsimp only
    by_cases hc : notFound e = true ∧ image ≠ "scratch"
    · have hc1 : (!notFound e || image == "scratch") = false := by
        simp [hc.1, hc.2]
      rw [hc1]
      simp only [Bool.false_eq_true, if_false]
      right
      cases h2 : w.NewBuilder name "scratch" .PullNever with
      | error e2 =>
        left
        exact ⟨e, e2, rfl, hc, rfl, rfl⟩
      | ok b =>
        right
        have h := deferContainerCleanup_spec w (mountContainer w opts b)
        exact ⟨e, b, rfl, hc, rfl, rfl, h.1, h.2.1⟩
    · left
      have hc1 : (!notFound e || image == "scratch") = true := by
        by_cases hnf : notFound e = true
        · have : image = "scratch" := by
            by_contra hne
            exact hc ⟨hnf, hne⟩
          simp [this]
        · simp [hnf]
      rw [hc1]
      exact ⟨e, rfl, hc, rfl⟩

theorem acquisitions_append (a b : List Event) :
    acquisitions (a ++ b) = acquisitions a ++ acquisitions b := by
  unfold acquisitions
  exact List.filter_append _ _

theorem acquisitions_nil : acquisitions [] = [] := rfl

theorem acquisitions_eq_nil (t : List Event) (h : ∀ ev ∈ t, ev.call.isNewBuilder = false) :
    acquisitions t = [] := by
  unfold acquisitions
  rw [List.filter_eq_nil_iff]
  intro ev hev
  simp [h ev hev]

theorem acquisitions_cons_newBuilder (name image : String) (policy : PullPolicy)
    (f : Option ExtErr) (t : List Event) :
    acquisitions (⟨.NewBuilder name image policy, f⟩ :: t) =
      ⟨.NewBuilder name image policy, f⟩ :: acquisitions t := by
  simp [acquisitions, Call.isNewBuilder]

theorem container_steps_no_acquisition (w : Collaborators) (opts : MountOptions) (b : Builder) :
    acquisitions (deferContainerCleanup w (mountContainer w opts b)).trace = [] := by
  obtain ⟨_, _, d, hd, hdc, _⟩ := deferContainerCleanup_spec w (mountContainer w opts b)
  apply acquisitions_eq_nil
  intro ev hev
  rw [hd] at hev
  rcases List.mem_append.1 hev with h | h
  · have := mountContainer_calls w opts b ev h
    revert this
    cases ev.call <;> simp [Call.isMountStep, Call.isNewBuilder]
  · have := hdc ev h
    revert this
    cases ev.call <;> simp [Call.isContainerCleanup, Call.isNewBuilder]

/-- The acquisition attempts of a run of `Mount` are those of `mountAcquire`. -/
theorem Mount_acquisitions (w : Collaborators) (opts : MountOptions) :
    acquisitions (Mount w opts).trace = [] ∨
    ∃ (name : String) (ref : ImageReference) (policy : PullPolicy),
      opts.containerName = .ok name ∧
      acquisitions (Mount w opts).trace =
        acquisitions (mountAcquire w opts name ref.dockerReference policy).trace ∧
      (∀ ev ∈ (mountAcquire w opts name ref.dockerReference policy).trace,
        ev ∈ (Mount w opts).trace) ∧
      (Mount w opts).err = (mountAcquire w opts name ref.dockerReference policy).err ∧
      (Mount w opts).dir = (mountAcquire w opts name ref.dockerReference policy).dir := by
  rcases Mount_shape w opts with ⟨_, _, ht⟩ | ⟨name, ref, policy, pre, post, _, hn, _, _, htr, he, hd, hcase⟩
  · left
    apply acquisitions_eq_nil
    intro ev hev
    rcases ht ev hev with h | ⟨e, h⟩
    · revert h
      cases ev.call <;> simp [Call.isParse, Call.isNewBuilder]
    · rw [h]
      rfl
  · right
    refine ⟨name, ref, policy, hn, ?_, ?_, he, hd⟩
    · have hpre : acquisitions pre = [] := by
        apply acquisitions_eq_nil
        intro ev hev
        have hparse : ∀ c : Call, c.isParse = true → c.isNewBuilder = false := by
          intro c
          cases c <;> simp [Call.isParse, Call.isNewBuilder]
        rcases hcase with ⟨_, _, hp⟩ | ⟨_, ⟨pre0, hp0, hp⟩, _⟩
        · exact hparse _ (hp ev hev)
        · rw [hp0] at hev
          rcases List.mem_append.1 hev with h | h
          · exact hparse _ (hp ev h)
          · simp only [List.mem_singleton] at h
            rw [h]
            rfl
      have hpost : acquisitions post = [] := by
        apply acquisitions_eq_nil
        intro ev hev
        rcases hcase with ⟨_, hp, _⟩ | ⟨_, _, ⟨_, hp⟩ | ⟨_, hp⟩⟩
        · rw [hp] at hev
          cases hev
        · rw [hp] at hev
          cases hev
        · rw [hp] at hev
          simp only [List.mem_singleton] at hev
          rw [hev]
          rfl
      rw [htr, acquisitions_append, acquisitions_append, hpre, hpost]
      simp
    · intro ev hev
      rw [htr]
      simp [hev]

/-- C6: a run of `Mount` attempts acquisition at most twice.  When the first
attempt fails with a not-found error and the image name is not `scratch`, there
is exactly one more attempt, for `scratch` with the never-pull policy, and the
container is mounted when it succeeds; for any other failure of the first
attempt there is no retry and `Mount` returns that error. -/
theorem acquisition_retry_policy (w : Collaborators) (opts : MountOptions) :
    (acquisitions (Mount w opts).trace).length ≤ 2 ∧
    (∀ name image policy f,
      (acquisitions (Mount w opts).trace).head? = some ⟨.NewBuilder name image policy, f⟩ →
      f = failureOf (w.NewBuilder name image policy) ∧ opts.containerName = .ok name ∧
      (f = none → acquisitions (Mount w opts).trace = [⟨.NewBuilder name image policy, none⟩])) ∧
    (∀ name image policy e,
      (acquisitions (Mount w opts).trace).head? = some ⟨.NewBuilder name image policy, some e⟩ →
      ((notFound e = true ∧ image ≠ "scratch") →
        acquisitions (Mount w opts).trace =
          [⟨.NewBuilder name image policy, some e⟩,
           ⟨.NewBuilder name "scratch" .PullNever,
             failureOf (w.NewBuilder name "scratch" .PullNever)⟩] ∧
        (∀ b, w.NewBuilder name "scratch" .PullNever = .ok b →
          (⟨.builderMount b.ContainerID, failureOf (w.builderMount b b.MountLabel)⟩ : Event) ∈
            (Mount w opts).trace) ∧
        (∀ e2, w.NewBuilder name "scratch" .PullNever = .error e2 →
          (Mount w opts).err = some (.ext e2) ∧ (Mount w opts).dir = "")) ∧
      (¬ (notFound e = true ∧ image ≠ "scratch") →
        acquisitions (Mount w opts).trace = [⟨.NewBuilder name image policy, some e⟩] ∧
        (Mount w opts).err = some (.ext e) ∧ (Mount w opts).dir = "")) := by
  rcases Mount_acquisitions w opts with h0 | ⟨name0, ref, policy0, hn, hacq, hsub, herr, hdir⟩
  · rw [h0]
    simp
  · rw [hacq, herr, hdir]
    rcases mountAcquire_cases w opts name0 ref.dockerReference policy0 with
      ⟨b, h1, htr, _, _⟩ | ⟨e0, h1, hc, hA⟩ | ⟨e0, e2, h1, hc, h2, hA⟩ |
      ⟨e0, b, h1, hc, h2, htr, _, _⟩
    · rw [htr, acquisitions_cons_newBuilder, container_steps_no_acquisition]
      refine ⟨by simp, ?_, ?_⟩
      · intro name image policy f hh
        simp only [List.head?_cons, Option.some.injEq, Event.mk.injEq, Call.NewBuilder.injEq] at hh
        obtain ⟨⟨rfl, rfl, rfl⟩, rfl⟩ := hh
        exact ⟨by simp [h1, failureOf], hn, fun _ => rfl⟩
      · intro name image policy e hh
        simp at hh
    · rw [hA]
      simp only [acquisitions_cons_newBuilder, acquisitions_nil]
      refine ⟨by simp, ?_, ?_⟩
      · intro name image policy f hh
        simp only [List.head?_cons, Option.some.injEq, Event.mk.injEq, Call.NewBuilder.injEq] at hh
        obtain ⟨⟨rfl, rfl, rfl⟩, rfl⟩ := hh
        exact ⟨by simp [h1, failureOf], hn, fun h => by cases h⟩
      · intro name image policy e hh
        simp only [List.head?_cons, Option.some.injEq, Event.mk.injEq, Call.NewBuilder.injEq] at hh
        obtain ⟨⟨rfl, rfl, rfl⟩, rfl⟩ := hh
        exact ⟨fun h => absurd h hc, fun _ => by simp⟩
    · rw [hA]
      simp only [acquisitions_cons_newBuilder, acquisitions_nil]
      refine ⟨by simp, ?_, ?_⟩
      · intro name image policy f hh
        simp only [List.head?_cons, Option.some.injEq, Event.mk.injEq, Call.NewBuilder.injEq] at hh
        obtain ⟨⟨rfl, rfl, rfl⟩, rfl⟩ := hh
        exact ⟨by simp [h1, failureOf], hn, fun h => by cases h⟩
      · intro name image policy e hh
        simp only [List.head?_cons, Option.some.injEq, Event.mk.injEq, Call.NewBuilder.injEq] at hh
        obtain ⟨⟨rfl, rfl, rfl⟩, rfl⟩ := hh
        refine ⟨fun _ => ⟨by simp [h2, failureOf], ?_, ?_⟩, fun h => absurd hc h⟩
        · intro b hb
          rw [h2] at hb
          cases hb
        · intro e3 he3
          rw [h2] at he3
          cases he3
          simp
    · rw [htr, acquisitions_cons_newBuilder, acquisitions_cons_newBuilder,
        container_steps_no_acquisition]
      refine ⟨by simp, ?_, ?_⟩
      · intro name image policy f hh
        simp only [List.head?_cons, Option.some.injEq, Event.mk.injEq, Call.NewBuilder.injEq] at hh
        obtain ⟨⟨rfl, rfl, rfl⟩, rfl⟩ := hh
        exact ⟨by simp [h1, failureOf], hn, fun h => by cases h⟩
      · intro name image policy e hh
        simp only [List.head?_cons, Option.some.injEq, Event.mk.injEq, Call.NewBuilder.injEq] at hh
        obtain ⟨⟨rfl, rfl, rfl⟩, rfl⟩ := hh
        refine ⟨fun _ => ⟨by simp [h2, failureOf], ?_, ?_⟩, fun h => absurd hc h⟩
        · intro b1 hb
          rw [h2] at hb
          cases hb
          apply hsub
          rw [htr]
          obtain ⟨_, _, d, hd, _, _⟩ := deferContainerCleanup_spec w (mountContainer w opts b)
          rw [hd]
          simp [mountContainer_mounts w opts b]
        · intro e3 he3
          rw [h2] at he3
          cases he3

theorem acquisition_retry_policy_witness :
    (acquisitions (Mount coldWorld cacheRequest).trace =
        [⟨.NewBuilder "c" "localhost/cache/ns/c:latest" .PullNever,
            some ⟨"reading manifest latest: manifest unknown", false⟩⟩,
         ⟨.NewBuilder "c" "scratch" .PullNever, none⟩] ∧
      (⟨.builderMount "cid", none⟩ : Event) ∈ (Mount coldWorld cacheRequest).trace) ∧
    (acquisitions (Mount deniedWorld cacheRequest).trace =
        [⟨.NewBuilder "c" "localhost/cache/ns/c:latest" .PullNever,
            some ⟨"permission denied", false⟩⟩] ∧
      (Mount deniedWorld cacheRequest).err = some (.ext ⟨"permission denied", false⟩) ∧
      (Mount deniedWorld cacheRequest).dir = "") :=
  ⟨⟨(((acquisition_retry_policy coldWorld cacheRequest).2.2 "c" "localhost/cache/ns/c:latest"
        .PullNever ⟨"reading manifest latest: manifest unknown", false⟩ (by decide)).1
        (by decide)).1,
    (((acquisition_retry_policy coldWorld cacheRequest).2.2 "c" "localhost/cache/ns/c:latest"
        .PullNever ⟨"reading manifest latest: manifest unknown", false⟩ (by decide)).1
        (by decide)).2.1 ⟨"cid", "", "", none⟩ (by decide)⟩,
   ((acquisition_retry_policy deniedWorld cacheRequest).2.2 "c" "localhost/cache/ns/c:latest"
      .PullNever ⟨"permission denied", false⟩ (by decide)).2 (by decide)⟩

/-! ## Cleanup of the external directory after a failed `Mount` -/

theorem mountAcquire_calls (w : Collaborators) (opts : MountOptions) (name image : String)
    (policy : PullPolicy) :
    ∀ ev ∈ (mountAcquire w opts name image policy).trace,
      ev.call.isNewBuilder = true ∨ ev.call.isMountStep = true ∨
        ev.call.isContainerCleanup = true := by
  have hcc : ∀ b, ∀ ev ∈ (deferContainerCleanup w (mountContainer w opts b)).trace,
      ev.call.isNewBuilder = true ∨ ev.call.isMountStep = true ∨
        ev.call.isContainerCleanup = true := by
    intro b ev hev
    obtain ⟨_, _, d, hd, hdc, _⟩ := deferContainerCleanup_spec w (mountContainer w opts b)
    rw [hd] at hev
    rcases List.mem_append.1 hev with h | h
    · exact Or.inr (Or.inl (mountContainer_calls w opts b ev h))
    · exact Or.inr (Or.inr (hdc ev h))
  intro ev hev
  rcases mountAcquire_cases w opts name image policy with
    ⟨b, _, htr, _, _⟩ | ⟨e0, _, _, hA⟩ | ⟨e0, e2, _, _, _, hA⟩ | ⟨e0, b, _, _, _, htr, _, _⟩
  · rw [htr] at hev
    rcases List.mem_cons.1 hev with h | h
    · rw [h]
      exact Or.inl rfl
    · exact hcc b ev h
  · rw [hA] at hev
    simp only [List.mem_singleton] at hev
    rw [hev]
    exact Or.inl rfl
  · rw [hA] at hev
    simp only [List.mem_cons, List.mem_singleton, List.not_mem_nil, or_false] at hev
    rcases hev with h | h <;> rw [h] <;> exact Or.inl rfl
  · rw [htr] at hev
    rcases List.mem_cons.1 hev with h | h
    · rw [h]
      exact Or.inl rfl
    · rcases List.mem_cons.1 h with h | h
      · rw [h]
        exact Or.inl rfl
      · exact hcc b ev h

/-- A run of `mountAcquire` without error: no mount step failed, the last
acquisition attempt succeeded, and a requested directory is the result. -/
theorem mountAcquire_ok (w : Collaborators) (opts : MountOptions) (name image : String)
    (policy : PullPolicy) (h : (mountAcquire w opts name image policy).err = none) :
    (∀ ev ∈ (mountAcquire w opts name image policy).trace,
      ev.call.isMountStep = true → ev.failure = none) ∧
    (∃ ev, (acquisitions (mountAcquire w opts name image policy).trace).getLast? = some ev ∧
      ev.failure = none) ∧
    (opts.ExtMountDir ≠ "" → (mountAcquire w opts name image policy).dir = opts.ExtMountDir) := by
  have hcc : ∀ b, (mountContainer w opts b).2.err = none →
      ∀ ev ∈ (deferContainerCleanup w (mountContainer w opts b)).trace, ev.failure = none := by
    intro b hb ev hev
    obtain ⟨_, _, d, hd, _, hnil⟩ := deferContainerCleanup_spec w (mountContainer w opts b)
    rw [hd, hnil hb, List.append_nil] at hev
    exact (mountContainer_ok w opts b hb).1 ev hev
  rcases mountAcquire_cases w opts name image policy with
    ⟨b, _, htr, he, hd⟩ | ⟨e0, _, _, hA⟩ | ⟨e0, e2, _, _, _, hA⟩ | ⟨e0, b, _, _, _, htr, he, hd⟩
  · rw [he] at h
    refine ⟨?_, ?_, ?_⟩
    · intro ev hev hms
      rw [htr] at hev
      rcases List.mem_cons.1 hev with h1 | h1
      · rw [h1]
      · exact hcc b h ev h1
    · rw [htr, acquisitions_cons_newBuilder, container_steps_no_acquisition]
      exact ⟨_, rfl, rfl⟩
    · intro hdir
      rw [hd]
      exact (mountContainer_ok w opts b h).2.1 hdir
  · rw [hA] at h
    cases h
  · rw [hA] at h
    cases h
  · rw [he] at h
    refine ⟨?_, ?_, ?_⟩
    · intro ev hev hms
      rw [htr] at hev
      rcases List.mem_cons.1 hev with h1 | h1
      · rw [h1] at hms
        cases hms
      · rcases List.mem_cons.1 h1 with h1 | h1
        · rw [h1]
        · exact hcc b h ev h1
    · rw [htr, acquisitions_cons_newBuilder, acquisitions_cons_newBuilder,
        container_steps_no_acquisition]
      exact ⟨_, rfl, rfl⟩
    · intro hdir
      rw [hd]
      exact (mountContainer_ok w opts b h).2.1 hdir

/-- C9: in a run of `Mount` that created the external directory, a failure of
a later step (the last acquisition attempt, mounting the container, saving
`MOUNT_DIR`, the bind mount) makes `Mount` return a non-nil error; whenever
`Mount` returns an error the removal of the directory is its last call, made
once; when `Mount` returns no error the directory is not removed and the
returned directory is `ExtMountDir`. -/
theorem mount_removes_created_dir (w : Collaborators) (opts : MountOptions)
    (hmk : (⟨.osMkdir opts.ExtMountDir, none⟩ : Event) ∈ (Mount w opts).trace) :
    (laterStepFailed (Mount w opts).trace = true → (Mount w opts).err ≠ none) ∧
    ((Mount w opts).err ≠ none →
      countCalls Call.isOsRemove (Mount w opts).trace = 1 ∧
      (Mount w opts).trace.getLast? =
        some ⟨.osRemove opts.ExtMountDir, w.osRemove opts.ExtMountDir⟩) ∧
    ((Mount w opts).err = none →
      countCalls Call.isOsRemove (Mount w opts).trace = 0 ∧
      (Mount w opts).dir = opts.ExtMountDir) := by
  have hparse : ∀ c : Call, c.isParse = true →
      c.isNewBuilder = false ∧ c.isMountStep = false ∧ c.isOsRemove = false ∧
        c ≠ .osMkdir opts.ExtMountDir := by
    intro c
    cases c <;> simp [Call.isParse, Call.isNewBuilder, Call.isMountStep, Call.isOsRemove]
  have hacq : ∀ c : Call,
      (c.isNewBuilder = true ∨ c.isMountStep = true ∨ c.isContainerCleanup = true) →
      c.isOsRemove = false ∧ c ≠ .osMkdir opts.ExtMountDir := by
    intro c
    cases c <;> simp [Call.isNewBuilder, Call.isMountStep, Call.isContainerCleanup,
      Call.isOsRemove]
  rcases Mount_shape w opts with
    ⟨_, _, ht⟩ | ⟨name, ref, policy, pre, post, _, _, _, _, htr, he, hd, hcase⟩
  · exfalso
    rcases ht _ hmk with h | ⟨e, h⟩
    · exact (hparse _ h).2.2.2 rfl
    · cases h
  · have hA := mountAcquire_calls w opts name ref.dockerReference policy
    rcases hcase with ⟨_, hpost, hpre⟩ | ⟨hdir, ⟨pre0, hpre0, hpre⟩, hpost⟩
    · exfalso
      rw [htr, hpost, List.append_nil] at hmk
      rcases List.mem_append.1 hmk with h | h
      · exact (hparse _ (hpre _ h)).2.2.2 rfl
      · exact (hacq _ (hA _ h)).2 rfl
    · have hcpre : countCalls Call.isOsRemove pre = 0 := by
        apply countCalls_eq_zero
        intro ev hev
        rw [hpre0] at hev
        rcases List.mem_append.1 hev with h | h
        · exact (hparse _ (hpre ev h)).2.2.1
        · simp only [List.mem_singleton] at h
          rw [h]
          rfl
      have hcA : countCalls Call.isOsRemove
          (mountAcquire w opts name ref.dockerReference policy).trace = 0 :=
        countCalls_eq_zero _ _ (fun ev hev => (hacq _ (hA ev hev)).1)
      have hfail : (Mount w opts).err = none → laterStepFailed (Mount w opts).trace = false := by
        intro hnone
        rw [he] at hnone
        obtain ⟨hsteps, ⟨last, hlast, hlastok⟩, _⟩ :=
          mountAcquire_ok w opts name ref.dockerReference policy hnone
        have hpost0 : post = [] := by
          rcases hpost with ⟨_, h⟩ | ⟨h, _⟩
          · exact h
          · exact absurd hnone h
        have hapre : acquisitions pre = [] := by
          apply acquisitions_eq_nil
          intro ev hev
          rw [hpre0] at hev
          rcases List.mem_append.1 hev with h | h
          · exact (hparse _ (hpre ev h)).1
          · simp only [List.mem_singleton] at h
            rw [h]
            rfl
        unfold laterStepFailed
        rw [htr, hpost0, List.append_nil, acquisitions_append, hapre, List.nil_append, hlast]
        simp only [Bool.or_eq_false_iff, hlastok, Option.isSome_none, and_true]
        rw [List.any_eq_false]
        intro ev hev
        rcases List.mem_append.1 hev with h | h
        · rw [hpre0] at h
          rcases List.mem_append.1 h with h | h
          · simp [(hparse _ (hpre ev h)).2.1]
          · simp only [List.mem_singleton] at h
            rw [h]
            simp [Call.isMountStep]
        · cases hms : ev.call.isMountStep with
          | false => simp
          | true => simp [hsteps ev h hms]
      refine ⟨?_, ?_, ?_⟩
      · intro hl hnone
        rw [hfail hnone] at hl
        cases hl
      · intro herr
        have hpost1 : post = [⟨.osRemove opts.ExtMountDir, w.osRemove opts.ExtMountDir⟩] := by
          rcases hpost with ⟨h, _⟩ | ⟨_, h⟩
          · rw [he] at herr
            exact absurd h herr
          · exact h
        rw [htr, hpost1]
        refine ⟨?_, by simp⟩
        rw [countCalls_append, countCalls_append, hcpre, hcA]
        simp [countCalls_cons, countCalls_nil, Call.isOsRemove]
      · intro hnone
        have hpost0 : post = [] := by
          rcases hpost with ⟨_, h⟩ | ⟨h, _⟩
          · exact h
          · rw [he] at hnone
            exact absurd hnone h
        refine ⟨?_, ?_⟩
        · rw [htr, hpost0, countCalls_append, countCalls_append, hcpre, hcA]
          rfl
        · rw [hd]
          rw [he] at hnone
          exact (mountAcquire_ok w opts name ref.dockerReference policy hnone).2.2 hdir

theorem mount_removes_created_dir_witness :
    ((Mount bindFailsWorld cacheRequest).err ≠ none ∧
      countCalls Call.isOsRemove (Mount bindFailsWorld cacheRequest).trace = 1 ∧
      (Mount bindFailsWorld cacheRequest).trace.getLast? = some ⟨.osRemove "/mnt/cache", none⟩) ∧
    (countCalls Call.isOsRemove (Mount okWorld cacheRequest).trace = 0 ∧
      (Mount okWorld cacheRequest).dir = "/mnt/cache") :=
  ⟨⟨(mount_removes_created_dir bindFailsWorld cacheRequest (by decide)).1 (by decide),
    (mount_removes_created_dir bindFailsWorld cacheRequest (by decide)).2.1 (by decide)⟩,
   (mount_removes_created_dir okWorld cacheRequest (by decide)).2.2 (by decide)⟩

/-! ## Errors of the later steps of `Unmount` are returned -/

theorem commit_ok_trace (w : Collaborators) (b : Builder) (r : Option ImageReference)
    (h : (commit w b r).err = none) : ∀ ev ∈ (commit w b r).trace, ev.failure = none := by
  unfold commit at h ⊢
  cases hc : w.storeContainer b.ContainerID with
  | error e => simp [hc] at h
  | ok c =>
    simp only [hc] at h ⊢
    cases hch : w.storeChanges "" c.LayerID with
    | error e => simp [hch] at h
    | ok changes =>
      simp only [hch] at h ⊢
      cases r with
      | none => simp
      | some ref =>
        dsimp only at h ⊢
        cases hb : w.builderCommit b ref <;> by_cases h0 : changes.length = 0 <;>
          by_cases hid : c.ImageID = "" <;> simp [hb, h0, hid] at h ⊢

theorem commitThenPush_ok (w : Collaborators) (opts : MountOptions) (b : Builder)
    (localRef : ImageReference) (target : Option ImageReference)
    (h : (commitThenPush w opts b localRef target).err = none) :
    ∀ ev ∈ (commitThenPush w opts b localRef target).trace, ev.failure = none := by
  unfold commitThenPush at h ⊢
  dsimp only at h ⊢
  cases hce : (commit w b (some localRef)).err with
  | some e => simp [hce] at h
  | none =>
    have hc := commit_ok_trace w b _ hce
    simp only [hce] at h ⊢
    by_cases hg : (commit w b (some localRef)).newImage = true ∧ opts.Image ≠ ""
    · rw [if_pos hg] at h ⊢
      cases hp : w.pushImage (commit w b (some localRef)).ref
          (commit w b (some localRef)).imageID target with
      | some e => simp [hp] at h
      | none =>
        intro ev hev
        simp only [List.mem_append, List.mem_singleton] at hev
        rcases hev with hev | hev
        · exact hc ev hev
        · rw [hev]
    · rw [if_neg hg]
      exact hc

theorem storeImageRef_ok (w : Collaborators) (name : String) (r : ImageReference)
    (t : List Event) (h : storeImageRef w name = (.ok r, t)) : ∀ ev ∈ t, ev.failure = none := by
  unfold storeImageRef at h
  cases hp : w.ParseStoreReference name with
  | error e =>
    rw [hp] at h
    cases h
  | ok r0 =>
    rw [hp] at h
    cases h
    simp

theorem pushTarget_ok (w : Collaborators) (opts : MountOptions) (r : Option ImageReference)
    (t : List Event) (h : pushTarget w opts = (.ok r, t)) : ∀ ev ∈ t, ev.failure = none := by
  unfold pushTarget at h
  by_cases hi : opts.Image = ""
  · rw [if_neg (by simpa using hi)] at h
    cases h
    simp
  · rw [if_pos hi] at h
    unfold imageRef at h
    rw [if_neg hi] at h
    cases hq : w.ParseImageName opts.Image with
    | error e =>
      rw [hq] at h
      cases h
    | ok r0 =>
      rw [hq] at h
      cases h
      simp

theorem resolveCommitPush_ok (w : Collaborators) (opts : MountOptions) (b : Builder)
    (h : (resolveCommitPush w opts b).err = none) :
    ∀ ev ∈ (resolveCommitPush w opts b).trace, ev.failure = none := by
  unfold resolveCommitPush at h ⊢
  rcases hs : storeImageRef w (localImageName opts) with ⟨_ | localRef, t2⟩
  · rw [hs] at h
    cases h
  · have ht2 := storeImageRef_ok w _ localRef t2 hs
    rw [hs] at h
    dsimp only at h ⊢
    rcases hq : pushTarget w opts with ⟨_ | target, t3⟩
    · rw [hq] at h
      cases h
    · have ht3 := pushTarget_ok w opts target t3 hq
      rw [hq] at h
      dsimp only at h ⊢
      intro ev hev
      rcases List.mem_append.1 hev with h1 | h1
      · rcases List.mem_append.1 h1 with h2 | h2
        · exact ht2 ev h2
        · exact ht3 ev h2
      · exact commitThenPush_ok w opts b localRef target h ev h1

theorem unmountRelease_ok (w : Collaborators) (opts : MountOptions) (b : Builder)
    (err : Option Err) (h : (unmountRelease w opts b err).err = none) :
    err = none ∧ ∀ ev ∈ (unmountRelease w opts b err).trace, ev.failure = none := by
  unfold unmountRelease at h ⊢
  dsimp only at h ⊢
  have hpre : w.builderUnmount b = none ∧ err = none := by
    by_cases h1 : (if w.builderUnmount b ≠ none ∧ err = none then
        Option.map Err.ext (w.builderUnmount b) else err) ≠ none ∨ (!opts.Commit) = true
    · rw [if_pos h1] at h
      dsimp only at h
      cases hu : w.builderUnmount b <;> cases he : err <;> simp [hu, he] at h ⊢
    · by_contra hc
      apply h1
      left
      cases hu : w.builderUnmount b <;> cases he : err <;> simp [hu, he] at hc ⊢
  refine ⟨hpre.2, ?_⟩
  by_cases h1 : (if w.builderUnmount b ≠ none ∧ err = none then
      Option.map Err.ext (w.builderUnmount b) else err) ≠ none ∨ (!opts.Commit) = true
  · rw [if_pos h1]
    intro ev hev
    simp only [List.mem_singleton] at hev
    rw [hev]
    exact hpre.1
  · rw [if_neg h1] at h ⊢
    intro ev hev
    rcases List.mem_cons.1 hev with hev | hev
    · rw [hev]
      exact hpre.1
    · exact resolveCommitPush_ok w opts b h ev hev

/-- When `Unmount` returns a nil error, the only collaborator calls that can
have failed are calls of the prelude (`unmount`, `os.Remove`, `OpenBuilder`),
and releasing the directory recorded in `MOUNT_DIR` returned no error: every
failure of unmounting the container, resolving the references, commit, push or
deletion is returned. -/
theorem unmount_reports_later_failures (w : Collaborators) (opts : MountOptions)
    (h : (Unmount w opts).err = none) :
    (∀ ev ∈ (Unmount w opts).trace, ev.failure ≠ none → ev.call.isPrelude = true) ∧
    (∀ b, (unmountBody w opts).builder = some b → (releaseRecorded w opts b).1 = none) := by
  cases hb : unmountBody w opts with
  | early r =>
    have hU : Unmount w opts = r := by
      unfold Unmount
      rw [hb]
    rw [hU] at h
    exact absurd h (unmountBody_early w opts r hb).2.2
  | located b r =>
    obtain ⟨t, ht, hr, _⟩ := unmountBody_located w opts b r hb
    have hU : Unmount w opts = deferDelete w opts b r := by
      unfold Unmount
      rw [hb]
    rw [hU] at h ⊢
    have hrerr : r.err = none := by
      unfold deferDelete at h
      split at h
      · dsimp only at h
        by_contra hne
        rw [if_neg (fun hh => hne hh.2)] at h
        exact hne h
      · exact h
    have hrel : (unmountRelease w opts b (releaseRecorded w opts b).1).err = none := by
      rw [hr] at hrerr
      exact hrerr
    obtain ⟨hrec, hall⟩ := unmountRelease_ok w opts b _ hrel
    refine ⟨?_, ?_⟩
    · intro ev hev hfail
      unfold deferDelete at hev h
      by_cases hctx : opts.Context.Err = none
      · simp only [hctx, if_true, List.mem_append, List.mem_singleton] at hev h
        rcases hev with hev | hev
        · rw [hr] at hev
          rcases List.mem_append.1 hev with h1 | h1
          · exact ht ev h1
          · exact absurd (hall ev h1) hfail
        · exfalso
          rw [hev] at hfail
          cases hd : w.builderDelete b with
          | none => exact hfail hd
          | some e => simp [hd, hrerr] at h
      · simp only [hctx, if_false] at hev
        rw [hr] at hev
        rcases List.mem_append.1 hev with h1 | h1
        · exact ht ev h1
        · exact absurd (hall ev h1) hfail
    · intro b1 hb1
      simp only [UnmountBody.builder, Option.some.injEq] at hb1
      rw [← hb1]
      exact hrec

/-- The fallback to `scratch` is tied to the two message suffixes of store.go
132: an absent image reported as `image not known` is returned as an error
after a single attempt, although the comment at store.go 128-129 speaks of
every image that does not exist. -/
theorem mount_no_fallback_for_other_messages :
    notFound ⟨"localhost/cache/ns/c:latest: image not known", false⟩ = false ∧
    acquisitions (Mount unknownImageWorld cacheRequest).trace =
      [⟨.NewBuilder "c" "localhost/cache/ns/c:latest" .PullNever,
          some ⟨"localhost/cache/ns/c:latest: image not known", false⟩⟩] ∧
    (Mount unknownImageWorld cacheRequest).err =
      some (.ext ⟨"localhost/cache/ns/c:latest: image not known", false⟩) := by
  decide

/-! ## Where the code departs from the specification -/

/-- C8 fails on the code: removing the requested directory `/mnt/cache` fails
(`unmountAndDelete` returns the error), yet `Unmount` returns a nil error,
because the error is overwritten by the result of `OpenBuilder`.  The same
failure for the directory recorded in `MOUNT_DIR` is returned. -/
theorem unmount_drops_requested_dir_error :
    (releaseRequested busyDirWorld cacheRequest).1 =
      some (.ext ⟨"remove /mnt/cache: device or resource busy", false⟩) ∧
    (⟨.osRemove "/mnt/cache", some ⟨"remove /mnt/cache: device or resource busy", false⟩⟩ :
      Event) ∈ (Unmount busyDirWorld cacheRequest).trace ∧
    (Unmount busyDirWorld cacheRequest).err = none ∧
    (Unmount busyDirWorld cacheRequest).imageID = "sha256:base" ∧
    (Unmount busyDirWorld otherDirRequest).err =
      some (.ext ⟨"remove /mnt/cache: device or resource busy", false⟩) := by
  decide

/-! ## Internal cache mode needs a cache name and a namespace -/

theorem localImageName_data (o : MountOptions) :
    (localImageName o).data =
      "localhost/cache/".data ++ o.CacheNamespace.data ++ ['/'] ++ o.CacheName.data ++
        ":latest".data := by
  unfold localImageName
  simp [String.data_append]

/-- Without a namespace the constructed name has an empty path component and
opens with `l`. -/
theorem localImageName_empty_namespace (o : MountOptions) (h : o.CacheNamespace = "") :
    (localImageName o).data.head? ≠ some '[' ∧
      hasEmptyPathComponent (localImageName o).data = true := by
  rw [localImageName_data, h]
  have hd : "localhost/cache/".data = 'l' :: "ocalhost/cache/".data := rfl
  constructor
  · rw [hd]
    simp
  · simp [hasEmptyPathComponent]

theorem deferRemoveDir_calls (w : Collaborators) (opts : MountOptions) (r : MountRun)
    (h : ∀ ev ∈ r.trace, ev.call.isParse = false) :
    ∀ ev ∈ (deferRemoveDir w opts r).trace, ev.call.isParse = false := by
  unfold deferRemoveDir
  split
  · intro ev hev
    rcases List.mem_append.1 hev with h1 | h1
    · exact h ev h1
    · simp only [List.mem_singleton] at h1
      rw [h1]
      rfl
  · exact h

theorem mountAcquire_no_parse (w : Collaborators) (opts : MountOptions) (name image : String)
    (policy : PullPolicy) :
    ∀ ev ∈ (mountAcquire w opts name image policy).trace, ev.call.isParse = false := by
  intro ev hev
  have h := mountAcquire_calls w opts name image policy ev hev
  revert h
  cases ev.call <;> simp [Call.isNewBuilder, Call.isMountStep, Call.isContainerCleanup,
    Call.isParse]

/-- C10: for a request in internal cache mode (`Image` empty) whose `CacheName`
or `CacheNamespace` is empty, `Mount` returns an error, and the only call it
can have made is the parsing of the constructed name: no directory is created
and no container acquired, whatever the collaborators would answer to any call,
given only that the reference parser rejects an empty path component.  For
every request in internal cache mode that passes validation and naming, the
first call is the parsing of exactly
`localhost/cache/<CacheNamespace>/<CacheName>:latest`, and no other name is
parsed. -/
theorem internal_cache_needs_name_and_namespace (w : Collaborators) (opts : MountOptions)
    (hgrammar : RejectsEmptyPathComponent w) (hi : opts.Image = "") :
    ((opts.CacheName = "" ∨ opts.CacheNamespace = "") →
      (Mount w opts).err ≠ none ∧ (Mount w opts).dir = "" ∧
      ∀ ev ∈ (Mount w opts).trace,
        ev = ⟨.ParseStoreReference
                ("localhost/cache/" ++ opts.CacheNamespace ++ "/" ++ opts.CacheName ++ ":latest"),
              failureOf (w.ParseStoreReference
                ("localhost/cache/" ++ opts.CacheNamespace ++ "/" ++ opts.CacheName ++ ":latest"))⟩ ∧
          ev.failure ≠ none) ∧
    (∀ name, opts.validate = none → opts.containerName = .ok name →
      ∃ rest, (Mount w opts).trace =
          ⟨.ParseStoreReference
              ("localhost/cache/" ++ opts.CacheNamespace ++ "/" ++ opts.CacheName ++ ":latest"),
            failureOf (w.ParseStoreReference
              ("localhost/cache/" ++ opts.CacheNamespace ++ "/" ++ opts.CacheName ++ ":latest"))⟩ ::
            rest ∧
        ∀ ev ∈ rest, ev.call.isParse = false) := by
  have hname : "localhost/cache/" ++ opts.CacheNamespace ++ "/" ++ opts.CacheName ++ ":latest" =
      localImageName opts := rfl
  rw [hname]
  constructor
  · intro hempty
    cases hv : opts.validate with
    | some e => simp [Mount, hv]
    | none =>
      have hns : opts.CacheNamespace = "" := by
        rcases hempty with hc | hc
        · exfalso
          simp [MountOptions.validate, hi, hc] at hv
        · exact hc
      cases hn : opts.containerName with
      | error e => simp [Mount, hv, hn]
      | ok name =>
        obtain ⟨h1, h2⟩ := localImageName_empty_namespace opts hns
        obtain ⟨e, he⟩ := hgrammar (localImageName opts) h1 h2
        simp [Mount, hv, hn, hi, storeImageRef, he, failureOf]
  · intro name hv hn
    cases hp : w.ParseStoreReference (localImageName opts) with
    | error e =>
      exact ⟨[], by simp [Mount, hv, hn, hi, storeImageRef, hp, failureOf], by simp⟩
    | ok ref =>
      have hA := mountAcquire_no_parse w opts name ref.dockerReference .PullNever
      by_cases hd : opts.ExtMountDir = ""
      · refine ⟨(mountAcquire w opts name ref.dockerReference .PullNever).trace, ?_, hA⟩
        simp [Mount, hv, hn, hi, storeImageRef, hp, failureOf, hd]
      · cases hmk : w.osMkdir opts.ExtMountDir with
        | some e =>
          refine ⟨[⟨.osMkdir opts.ExtMountDir, some e⟩], ?_, by simp [Call.isParse]⟩
          simp [Mount, hv, hn, hi, storeImageRef, hp, failureOf, hd, hmk]
        | none =>
          refine ⟨⟨.osMkdir opts.ExtMountDir, none⟩ ::
            (deferRemoveDir w opts
              (mountAcquire w opts name ref.dockerReference .PullNever)).trace, ?_, ?_⟩
          · simp [Mount, hv, hn, hi, storeImageRef, hp, failureOf, hd, hmk]
          · intro ev hev
            rcases List.mem_cons.1 hev with h1 | h1
            · rw [h1]
              rfl
            · exact deferRemoveDir_calls w opts _ hA ev h1

theorem internal_cache_needs_name_and_namespace_witness :
    ((Mount strictWorld noNamespaceRequest).err ≠ none ∧
      (Mount strictWorld noNamespaceRequest).dir = "" ∧
      ∀ ev ∈ (Mount strictWorld noNamespaceRequest).trace,
        ev = ⟨.ParseStoreReference "localhost/cache//c:latest",
              some ⟨"invalid reference format", false⟩⟩ ∧ ev.failure ≠ none) ∧
    (∃ rest, (Mount strictWorld cacheRequest).trace =
        ⟨.ParseStoreReference "localhost/cache/ns/c:latest", none⟩ :: rest ∧
      ∀ ev ∈ rest, ev.call.isParse = false) :=
  ⟨(internal_cache_needs_name_and_namespace strictWorld noNamespaceRequest
      (fun name _ h => ⟨⟨"invalid reference format", false⟩, by simp [strictWorld, h]⟩)
      rfl).1 (Or.inr rfl),
   (internal_cache_needs_name_and_namespace strictWorld cacheRequest
      (fun name _ h => ⟨⟨"invalid reference format", false⟩, by simp [strictWorld, h]⟩)
      rfl).2 "c" (by decide) (by decide)⟩

/-- `Mount` has no namespace check of its own: that check is in `imageRef`,
which `Mount` calls only for a named image.  With a parser that accepted
`localhost/cache//c:latest` the run would go on, so the rejection of a request
without namespace rests on the reference grammar. -/
theorem mount_has_no_namespace_check :
    (imageRef okWorld noNamespaceRequest).1 =
      .error (.errorf "cache name and namespace must be specified" []) ∧
    noNamespaceRequest.validate = none ∧
    (Mount okWorld noNamespaceRequest).err = none ∧
    (Mount okWorld noNamespaceRequest).dir = "/mnt/cache" ∧
    (Mount okWorld noNamespaceRequest).trace =
      [⟨.ParseStoreReference "localhost/cache//c:latest", none⟩,
       ⟨.osMkdir "/mnt/cache", none⟩,
       ⟨.NewBuilder "/mnt/cache" "localhost/cache//c:latest" .PullNever, none⟩,
       ⟨.builderMount "cid", none⟩,
       ⟨.builderSave "cid", none⟩,
       ⟨.mount "/var/lib/containers/merged" "/mnt/cache", none⟩] := by
  decide

end Layerfs
